import Mathlib

/-!
Verification development for the X-Thread-Generator repository.

The JavaScript sources are shallowly embedded in Lean 4. A JavaScript string
is modelled as a list of Unicode code points (`JStr := List Char`); `.length`
of a JS string is modelled by `utf16Len` (astral code points count as two
UTF-16 units). JS array/string helpers (`split`, `substring`, `lastIndexOf`,
`slice`, `includes`, `trim`) are modelled by executable functions below with
JS semantics; `substring`/`lastIndexOf` positions are UTF-16 unit positions
(a code point is addressed by the position of its first unit).

Floating point: the JS sources compare values such as
`current.length + segment.length + 1 < avgLength * 1.5` and
`truncated.length < availableSpace * 0.3` with IEEE doubles.  These are
modelled by exact integer cross-multiplication (2*t*x < 3*sum and
10*len < 3*avail).  The float results can deviate from the exact rational
comparison only within one ulp of a boundary; no theorem below depends on a
boundary case.  Percentages from the language detector are carried as exact
raw counts plus the JS value rounded to two decimals, held scaled by 100
(`centiPercent`), which reproduces `Math.round(p * 100) / 100` exactly.

The `grapheme-splitter` npm dependency (not part of the repository) is
modelled from the spec: a grapheme cluster boundary exists between two
adjacent code points unless the second is a combining mark or variation
selector or skin-tone modifier, one of the two is a zero-width joiner, or
both are regional indicators.  `Math.random()` driven choices are modelled
by explicit seed parameters (`Rng`), matching the spec requirement that
randomness be isolated behind a seedable source.
-/

/-- A JavaScript string, as its list of Unicode code points. -/
abbrev JStr := List Char

/-- The space character. -/
def SP : Char := Char.ofNat 32

/-- The newline character. -/
def NL : Char := Char.ofNat 10

/-- Whitespace per the JS regex class backslash-s. -/
def isWs (c : Char) : Bool :=
  (9 ≤ c.toNat && c.toNat ≤ 13) || c.toNat == 32 || c.toNat == 160 ||
  c.toNat == 0x1680 || (0x2000 ≤ c.toNat && c.toNat ≤ 0x200A) ||
  c.toNat == 0x2028 || c.toNat == 0x2029 || c.toNat == 0x202F ||
  c.toNat == 0x205F || c.toNat == 0x3000 || c.toNat == 0xFEFF

/-- Number of UTF-16 code units of one code point. -/
def utf16Units (c : Char) : Nat := if c.toNat < 0x10000 then 1 else 2

/-- Model of the JS string `.length` (UTF-16 code units). -/
def utf16Len : JStr → Nat
  | [] => 0
  | c :: cs => utf16Units c + utf16Len cs

/-- Model of JS `String.prototype.trim`. -/
def jsTrim (l : JStr) : JStr :=
  ((l.dropWhile isWs).reverse.dropWhile isWs).reverse

/-- Model of JS `String.prototype.includes`. -/
def containsSub (hay needle : JStr) : Bool :=
  match hay with
  | [] => needle.isEmpty
  | _ :: t => needle.isPrefixOf hay || containsSub t needle

/-- Join a list of strings with a single-space separator (JS `join(' ')`). -/
def joinSp (l : List JStr) : JStr := List.intercalate [SP] l

/-- Fuel-driven core of `setDedup` (the fuel makes the recursion structural
so that terms reduce in the kernel; the wrapper supplies enough fuel). -/
def setDedupGo : Nat → List JStr → List JStr
  | 0, _ => []
  | _, [] => []
  | fuel + 1, x :: xs => x :: setDedupGo fuel (xs.filter (fun y => y ≠ x))

/-- Keep the first occurrence of each element, dropping later duplicates
(model of JS `[...new Set(xs)]`). -/
def setDedup (l : List JStr) : List JStr := setDedupGo l.length l

/-- Model of JS `Array.prototype.slice(0, e)` where `e` may be negative
(negative `e` counts from the end). -/
def jsSliceEnd {α : Type} (l : List α) (e : Int) : List α :=
  if e < 0 then l.take (((l.length : Int) + e).toNat) else l.take e.toNat

/-- Core of `splitRuns`.  The `skipping` flag is true while consuming a
separator run (this folds the two mutually recursive states of the scan
into one structurally recursive function). -/
def splitRunsGo (p : Char → Bool) : Bool → JStr → JStr → List JStr
  | false, acc, [] => [acc.reverse]
  | false, acc, c :: cs =>
    if p c then acc.reverse :: splitRunsGo p true [] cs
    else splitRunsGo p false (c :: acc) cs
  | true, _, [] => [[]]
  | true, _, c :: cs =>
    if p c then splitRunsGo p true [] cs else splitRunsGo p false [c] cs

/-- Model of JS `String.prototype.split(/\s+/)` (and generally splitting on
maximal runs of a character class).  A leading separator run yields a leading
empty piece and a trailing run a trailing empty piece, as in JS. -/
def splitRuns (p : Char → Bool) (l : JStr) : List JStr := splitRunsGo p false [] l

/-- Sentence terminators of the source regexes `[.!?\u00D8\u0178]`: `.`,
`!`, `?` and the two code points U+00D8 and U+0178 that the repository
files store at that position (bytes `C3 98 C5 B8` in `localTemplates.js`
line 131 and in the charCounter file). -/
def isSentTerm (c : Char) : Bool :=
  c == '.' || c == '!' || c == '?' || c.toNat == 0xD8 || c.toNat == 0x178

/-- Fuel-driven core of `splitSentences` (each step consumes at least one
character, so fuel = length + 1 suffices). -/
def splitSentGo : Nat → JStr → JStr → List JStr
  | 0, acc, _ => [acc.reverse]
  | _ + 1, acc, [] => [acc.reverse]
  | fuel + 1, acc, c :: cs =>
    if isSentTerm c then
      match cs with
      | d :: ds =>
        if isWs d then acc.reverse :: splitSentGo fuel [] (ds.dropWhile isWs)
        else splitSentGo fuel (c :: acc) (d :: ds)
      | [] => [(c :: acc).reverse]
    else splitSentGo fuel (c :: acc) cs

/-- Model of JS `split(/[.!?؟]\s+/)`: split where a terminator is
followed by at least one whitespace character; the terminator and the
whitespace run are consumed. -/
def splitSentences (l : JStr) : List JStr := splitSentGo (l.length + 1) [] l

/-- Decimal digits of a natural number as a JS string (aux, with fuel). -/
def natDecAux : Nat → Nat → JStr
  | 0, _ => []
  | f + 1, n =>
    if n < 10 then [Char.ofNat (48 + n)]
    else natDecAux f (n / 10) ++ [Char.ofNat (48 + n % 10)]

/-- Decimal representation of a natural number (JS template interpolation). -/
def natDec (n : Nat) : JStr := natDecAux (n + 1) n

/-- ASCII/Latin-1 lowering, the part of JS `toLowerCase` relevant to the
repository strings (ASCII letters, Latin-1 capitals, and the double-byte
capitals appearing in the repository data). -/
def jsLowerChar (c : Char) : Char :=
  if 65 ≤ c.toNat && c.toNat ≤ 90 then Char.ofNat (c.toNat + 32)
  else if (192 ≤ c.toNat && c.toNat ≤ 222) && c.toNat ≠ 215 then Char.ofNat (c.toNat + 32)
  else if c.toNat == 0x178 then Char.ofNat 0xFF
  else if c.toNat == 0x11E then Char.ofNat 0x11F
  else if c.toNat == 0x160 then Char.ofNat 0x161
  else if c.toNat == 0x152 then Char.ofNat 0x153
  else if c.toNat == 0x17D then Char.ofNat 0x17E
  else c

/-- Model of JS `String.prototype.toLowerCase` on the repertoire used here. -/
def jsLower (l : JStr) : JStr := l.map jsLowerChar

/-- Substring by UTF-16 unit positions: the code points whose first unit
position lies in `[a, b)` (model of JS `substring(a, b)` for `a ≤ b`). -/
def jsSubstringGo : JStr → Nat → Nat → Nat → JStr
  | [], _, _, _ => []
  | c :: cs, p, a, b =>
    (if a ≤ p ∧ p < b then [c] else []) ++ jsSubstringGo cs (p + utf16Units c) a b

/-- Model of JS `String.prototype.substring(a, b)` (unit positions). -/
def jsSubstring (l : JStr) (a b : Nat) : JStr := jsSubstringGo l 0 a b

/-- Model of JS `String.prototype.lastIndexOf(ch)` (aux). -/
def jsLastIndexOfGo (c : Char) : JStr → Nat → Int → Int
  | [], _, best => best
  | d :: ds, p, best =>
    jsLastIndexOfGo c ds (p + utf16Units d) (if d = c then (p : Int) else best)

/-- Model of JS `String.prototype.lastIndexOf(ch)`: greatest unit position of
`c`, or `-1`. -/
def jsLastIndexOfCh (l : JStr) (c : Char) : Int := jsLastIndexOfGo c l 0 (-1)

/-- Model of JS `String.prototype.lastIndexOf(ch, fromIndex)` (aux). -/
def jsLastIndexOfFromGo (c : Char) (m : Nat) : JStr → Nat → Int → Int
  | [], _, best => best
  | d :: ds, p, best =>
    jsLastIndexOfFromGo c m ds (p + utf16Units d)
      (if d = c ∧ p ≤ m then (p : Int) else best)

/-- Model of JS `lastIndexOf(ch, fromIndex)`: greatest unit position `≤ m`
holding `c`, or `-1`. -/
def jsLastIndexOfFrom (l : JStr) (c : Char) (m : Nat) : Int :=
  jsLastIndexOfFromGo c m l 0 (-1)

/-- Ceiling division on naturals (JS `Math.ceil(a / b)` for nonnegative ints). -/
def ceilDiv (a b : Nat) : Nat := (a + b - 1) / b

/-- Insert an element at a position (JS `splice(n, 0, a)` for `n ≤ length`;
positions past the end append, as in JS). -/
def listInsertAt {α : Type} : Nat → α → List α → List α
  | _, a, [] => [a]
  | 0, a, l => a :: l
  | n + 1, a, x :: xs => x :: listInsertAt n a xs

/-- Combining marks and modifiers that attach to the preceding code point in
the grapheme model (combining diacritics, Arabic marks, variation selector 16,
skin-tone modifiers). -/
def isCombining (c : Char) : Bool :=
  (0x300 ≤ c.toNat && c.toNat ≤ 0x36F) ||
  (0x64B ≤ c.toNat && c.toNat ≤ 0x65F) || c.toNat == 0x670 ||
  c.toNat == 0xFE0F || (0x1F3FB ≤ c.toNat && c.toNat ≤ 0x1F3FF)

/-- The zero-width joiner. -/
def isZWJ (c : Char) : Bool := c.toNat == 0x200D

/-- Regional indicator symbols (flag pairs). -/
def isRI (c : Char) : Bool := 0x1F1E6 ≤ c.toNat && c.toNat ≤ 0x1F1FF

/-- Modelled from the spec: the `grapheme-splitter` dependency is not part of
the repository; per the spec it counts user-perceived characters, merging
combining-mark sequences, ZWJ emoji sequences and flag pairs.  Two adjacent
code points stay in one cluster exactly when this relation holds. -/
def gattach (a b : Char) : Bool :=
  isCombining b || isZWJ a || isZWJ b || (isRI a && isRI b)

/-- One step of the grapheme splitter: prepend code point `c` to an already
split tail, merging with the first cluster when `gattach` holds. -/
def gsplitCons (c : Char) : List JStr → List JStr
  | [] => [[c]]
  | [] :: gs => [c] :: gs
  | (d :: g) :: gs => if gattach c d then (c :: d :: g) :: gs else [c] :: (d :: g) :: gs

/-- Modelled from the spec: `splitter.splitGraphemes`, splitting a string
into grapheme clusters at every adjacent pair not related by `gattach`. -/
def gsplit : JStr → List JStr
  | [] => []
  | c :: cs => gsplitCons c (gsplit cs)

/-- Grapheme-cluster count of a string. -/
def gcount (l : JStr) : Nat := (gsplit l).length

theorem gsplit_head_eq (c : Char) (l : JStr) :
    ∃ t gs, gsplit (c :: l) = (c :: t) :: gs := by
  simp only [gsplit]
  rcases gsplit l with _ | ⟨g, gs⟩
  · exact ⟨[], [], rfl⟩
  · cases g with
    | nil => exact ⟨[], gs, rfl⟩
    | cons d g' =>
      by_cases hab : gattach c d
      · exact ⟨d :: g', gs, by simp [gsplitCons, hab]⟩
      · exact ⟨[], (d :: g') :: gs, by simp [gsplitCons, hab]⟩

theorem gsplit_join (l : JStr) : (gsplit l).flatten = l := by
  induction l with
  | nil => rfl
  | cons c cs ih =>
    simp only [gsplit]
    rcases h : gsplit cs with _ | ⟨g, gs⟩
    · rw [h] at ih; simp at ih; simp [gsplitCons, ih.symm]
    · cases g with
      | nil => rw [h] at ih; simp at ih ⊢; simpa [gsplitCons] using ih
      | cons d g' =>
        rw [h] at ih
        by_cases hab : gattach c d
        · simp only [gsplitCons, hab, if_pos]
          simpa using congrArg (c :: ·) ih
        · simp only [gsplitCons, hab, Bool.false_eq_true, if_false]
          simpa using congrArg (c :: ·) ih

theorem gcount_cons_le (c : Char) (l : JStr) : gcount (c :: l) ≤ gcount l + 1 := by
  simp only [gcount, gsplit]
  rcases gsplit l with _ | ⟨g, gs⟩
  · simp [gsplitCons]
  · cases g with
    | nil => simp [gsplitCons]
    | cons d g' => by_cases hab : gattach c d <;> simp [gsplitCons, hab]

theorem gcount_cons_attach (c d : Char) (l : JStr) (hab : gattach c d = true) :
    gcount (c :: d :: l) = gcount (d :: l) := by
  obtain ⟨t, gs, h⟩ := gsplit_head_eq d l
  simp only [gcount, gsplit] at h ⊢
  rw [h, gsplitCons, if_pos hab]
  simp

theorem gcount_cons_noattach (c d : Char) (l : JStr) (hab : gattach c d = false) :
    gcount (c :: d :: l) = gcount (d :: l) + 1 := by
  obtain ⟨t, gs, h⟩ := gsplit_head_eq d l
  simp only [gcount, gsplit] at h ⊢
  rw [h, gsplitCons, if_neg (by simp [hab])]
  simp

theorem gcount_append_le (a b : JStr) : gcount (a ++ b) ≤ gcount a + gcount b := by
  induction a with
  | nil => simp [gcount, gsplit]
  | cons c a' ih =>
    cases a' with
    | nil =>
      have h1 := gcount_cons_le c b
      have h2 : gcount [c] = 1 := by simp [gcount, gsplit, gsplitCons]
      simp only [List.singleton_append]
      omega
    | cons e a'' =>
      by_cases hab : gattach c e
      · have h1 := gcount_cons_attach c e (a'' ++ b) hab
        have h2 := gcount_cons_attach c e a'' hab
        simp only [List.cons_append] at *
        omega
      · have hab' : gattach c e = false := by simpa using hab
        have h1 := gcount_cons_noattach c e (a'' ++ b) hab'
        have h2 := gcount_cons_noattach c e a'' hab'
        simp only [List.cons_append] at *
        omega

theorem gcount_le_length (l : JStr) : gcount l ≤ l.length := by
  induction l with
  | nil => simp [gcount, gsplit]
  | cons c cs ih =>
    have := gcount_cons_le c cs
    simp only [List.length_cons]
    omega

theorem length_le_utf16Len (l : JStr) : l.length ≤ utf16Len l := by
  induction l with
  | nil => simp [utf16Len]
  | cons c cs ih =>
    simp only [utf16Len, utf16Units, List.length_cons]
    split <;> omega

theorem gcount_le_utf16Len (l : JStr) : gcount l ≤ utf16Len l :=
  le_trans (gcount_le_length l) (length_le_utf16Len l)

/-- Groups produced by `gsplit` are nonempty chains of attached code points. -/
theorem gsplit_groups (l : JStr) :
    ∀ g ∈ gsplit l, g ≠ [] ∧ g.Chain' (fun a b => gattach a b = true) := by
  induction l with
  | nil => simp [gsplit]
  | cons c cs ih =>
    intro g hg
    simp only [gsplit] at hg
    rcases h : gsplit cs with _ | ⟨g0, gs⟩
    · rw [h] at hg; simp [gsplitCons] at hg; simp [hg]
    · rw [h] at hg
      cases g0 with
      | nil =>
        simp only [gsplitCons, List.mem_cons] at hg
        rcases hg with hg | hg
        · simp [hg]
        · exact ih g (by rw [h]; exact List.mem_cons_of_mem _ hg)
      | cons d g' =>
        by_cases hab : gattach c d
        · simp only [gsplitCons, hab, if_pos, List.mem_cons] at hg
          rcases hg with hg | hg
          · subst hg
            have hchain := ih (d :: g') (by rw [h]; exact List.mem_cons_self _ _)
            exact ⟨by simp, List.Chain'.cons hab hchain.2⟩
          · exact ih g (by rw [h]; exact List.mem_cons_of_mem _ hg)
        · simp only [gsplitCons, hab, Bool.false_eq_true, if_false, List.mem_cons] at hg
          rcases hg with hg | hg | hg
          · simp [hg]
          · subst hg; exact ih (d :: g') (by rw [h]; exact List.mem_cons_self _ _)
          · exact ih g (by rw [h]; exact List.mem_cons_of_mem _ hg)

/-- A nonempty attach-chain is one grapheme cluster. -/
theorem gcount_of_chain (g : JStr) (hne : g ≠ [])
    (hc : g.Chain' (fun a b => gattach a b = true)) : gcount g = 1 := by
  induction g with
  | nil => exact absurd rfl hne
  | cons c cs ih =>
    cases cs with
    | nil => simp [gcount, gsplit, gsplitCons]
    | cons d g' =>
      have hab : gattach c d = true := (List.chain'_cons.mp hc).1
      have hrest := (List.chain'_cons.mp hc).2
      rw [gcount_cons_attach c d g' hab]
      exact ih (by simp) hrest

/-- Joining `k` grapheme clusters yields at most `k` clusters. -/
theorem gcount_join_le (gs : List JStr)
    (h : ∀ g ∈ gs, g ≠ [] ∧ g.Chain' (fun a b => gattach a b = true)) :
    gcount gs.flatten ≤ gs.length := by
  induction gs with
  | nil => simp [gcount, gsplit]
  | cons g gs' ih =>
    have hg := h g (List.mem_cons_self _ _)
    have h1 := gcount_append_le g gs'.flatten
    have h2 := gcount_of_chain g hg.1 hg.2
    have h3 := ih (fun x hx => h x (List.mem_cons_of_mem _ hx))
    simp only [List.flatten_cons, List.length_cons]
    omega

/-- Embedding of `getCharCount(text, hashtags, cta)` from
`src/utils/charCounter.js`: append the joined hashtags and the CTA (each
with one space separator) unless already contained in the text, then count
grapheme clusters; empty/absent text yields 0.  A JS `null`/absent `cta` is
modelled by the empty string (both are falsy in the source). -/
def getCharCount (text : JStr) (hashtags : List JStr) (cta : JStr) : Nat :=
  if text = [] then 0
  else
    let full1 :=
      if hashtags ≠ [] then
        let ht := joinSp hashtags
        if containsSub text ht then text else text ++ SP :: ht
      else text
    let full2 :=
      if cta ≠ [] && !containsSub full1 cta then full1 ++ SP :: cta else full1
    gcount full2

/-- Space reserved by `truncateSmart` for the hashtags
(`hashtags.join(' ').length + 1`, UTF-16 units). -/
def hashtagSpace (hashtags : List JStr) : Nat :=
  if hashtags = [] then 0 else utf16Len (joinSp hashtags) + 1

/-- Space reserved by `truncateSmart` for the CTA (`cta.length + 1`). -/
def ctaSpace (cta : JStr) : Nat :=
  if cta = [] then 0 else utf16Len cta + 1

/-- The `availableSpace` computed inside `truncateSmart`. -/
def availableSpace (maxLength : Int) (hashtags : List JStr) (cta : JStr) : Int :=
  maxLength - hashtagSpace hashtags - ctaSpace cta

/-- The word-boundary accumulation loop of `truncateSmart`: greedily extend
by whole words while the grapheme count stays within the budget; stop at the
first word that does not fit. -/
def wordLoop (avail : Int) : List JStr → JStr → JStr
  | [], acc => acc
  | w :: ws, acc =>
    let t := if acc = [] then w else acc ++ SP :: w
    if (getCharCount t [] [] : Int) ≤ avail then wordLoop avail ws t else acc

/-- The sentence-boundary accumulation loop of `truncateSmart` (joins with
a period and a space). -/
def sentLoop (avail : Int) : List JStr → JStr → JStr
  | [], acc => acc
  | s :: ss, acc =>
    let t := if acc = [] then s else acc ++ '.' :: SP :: s
    if (getCharCount t [] [] : Int) ≤ avail then sentLoop avail ss t else acc

/-- The ellipsis appended by the character-level fallback of `truncateSmart`. -/
def dots3 : JStr := ['.', '.', '.']

/-- Embedding of `truncateSmart(text, maxLength, hashtags, cta)` from
`src/utils/charCounter.js`.  The float comparisons `len > avail * 0.5` and
`len < avail * 0.3` are modelled exactly by `2*len > avail` and
`10*len < 3*avail`. -/
def truncateSmart (text : JStr) (maxLength : Int) (hashtags : List JStr) (cta : JStr) : JStr :=
  if text = [] then []
  else
    let avail := availableSpace maxLength hashtags cta
    if avail ≤ 0 then []
    else if (getCharCount text [] [] : Int) ≤ avail then text
    else
      let t1 := wordLoop avail (splitRuns isWs text) []
      if (2 * (utf16Len t1 : Int)) > avail then t1
      else
        let t2 := sentLoop avail (splitSentences text) []
        if t2 = [] || decide ((10 * (utf16Len t2 : Int)) < 3 * avail) then
          (jsSliceEnd (gsplit text) (avail - 3)).flatten ++ dots3
        else t2

/-- Result object of `validateTweetLength`. -/
structure LengthValidation where
  isValid : Bool
  charCount : Nat
  maxLength : Nat
  remaining : Int
  overBy : Nat
deriving DecidableEq, Repr

/-- Embedding of `validateTweetLength(text, hashtags, cta)` from
`src/utils/charCounter.js` (`CONSTANTS.TWEET_CHAR_LIMIT = 280`). -/
def validateTweetLength (text : JStr) (hashtags : List JStr) (cta : JStr) : LengthValidation :=
  let c := getCharCount text hashtags cta
  { isValid := c ≤ 280
    charCount := c
    maxLength := 280
    remaining := (280 : Int) - c
    overBy := if c > 280 then c - 280 else 0 }

/-- Characters removed by the source regex `[\s\d\p{P}\p{S}]` before letter
counting: whitespace, ASCII digits, and the punctuation/symbol repertoire
relevant to this code base (ASCII punctuation and symbols, Latin-1
punctuation, general punctuation, arrows/symbol blocks, dingbats, Arabic
punctuation, emoji blocks).  Format controls such as U+00AD and variation
selectors are not in `\p{P}`/`\p{S}` and are kept, matching JS. -/
def isStrippedChar (c : Char) : Bool :=
  isWs c ||
  (48 ≤ c.toNat && c.toNat ≤ 57) ||
  (0x21 ≤ c.toNat && c.toNat ≤ 0x2F) ||
  (0x3A ≤ c.toNat && c.toNat ≤ 0x40) ||
  (0x5B ≤ c.toNat && c.toNat ≤ 0x60) ||
  (0x7B ≤ c.toNat && c.toNat ≤ 0x7E) ||
  c.toNat == 0xA1 || (0xA2 ≤ c.toNat && c.toNat ≤ 0xA9) ||
  c.toNat == 0xAB || c.toNat == 0xAC || (0xAE ≤ c.toNat && c.toNat ≤ 0xB1) ||
  c.toNat == 0xB4 || c.toNat == 0xB6 || c.toNat == 0xB7 || c.toNat == 0xB8 ||
  c.toNat == 0xBB || c.toNat == 0xBF || c.toNat == 0xD7 || c.toNat == 0xF7 ||
  (0x2010 ≤ c.toNat && c.toNat ≤ 0x2027) ||
  (0x2030 ≤ c.toNat && c.toNat ≤ 0x205E) ||
  (0x2190 ≤ c.toNat && c.toNat ≤ 0x2BFF) ||
  c.toNat == 0x60C || c.toNat == 0x61B || c.toNat == 0x61F ||
  (0x66A ≤ c.toNat && c.toNat ≤ 0x66D) || c.toNat == 0x6D4 ||
  (0x1F000 ≤ c.toNat && c.toNat ≤ 0x1FAFF)

/-- Arabic-script ranges of the source (`langDetect.js`). -/
def isArabicScript (c : Char) : Bool :=
  (0x600 ≤ c.toNat && c.toNat ≤ 0x6FF) ||
  (0x750 ≤ c.toNat && c.toNat ≤ 0x77F) ||
  (0x8A0 ≤ c.toNat && c.toNat ≤ 0x8FF) ||
  (0xFE70 ≤ c.toNat && c.toNat ≤ 0xFEFF) ||
  (0xFB50 ≤ c.toNat && c.toNat ≤ 0xFDFF)

/-- Latin letters a-z / A-Z. -/
def isEnglishLetter (c : Char) : Bool :=
  (97 ≤ c.toNat && c.toNat ≤ 122) || (65 ≤ c.toNat && c.toNat ≤ 90)

/-- Result of `detectLanguagePercentages`.  The JS float percentages are
carried as their value rounded to two decimals and scaled by 100
(`arabic = 33.33` becomes `3333`), together with the exact raw counts. -/
structure LangAnalysis where
  arabic : Nat
  english : Nat
  other : Nat
  total_chars : Nat
  dominant_language : JStr
  direction : JStr
  is_mixed : Bool
  rawArabic : Nat
  rawEnglish : Nat
  rawOther : Nat
deriving DecidableEq, Repr

/-- The all-zero analysis returned for empty input. -/
def zeroAnalysis : LangAnalysis :=
  { arabic := 0, english := 0, other := 0, total_chars := 0
    dominant_language := "unknown".toList, direction := "ltr".toList
    is_mixed := false, rawArabic := 0, rawEnglish := 0, rawOther := 0 }

/-- `Math.round((a / t) * 100 * 100)`, exactly, as a natural number
(the JS value `Math.round(p*100)/100` times 100). -/
def centiPercent (a t : Nat) : Nat := (20000 * a + t) / (2 * t)

/-- Embedding of `detectLanguagePercentages(text)` from
`src/utils/langDetect.js`.  Comparisons of the unrounded float percentages
are modelled by exact integer cross-multiplication on the raw counts
(`arabicPercent > 30` is `10*ac > 3*total`, and percentage comparisons over
a common denominator compare the counts). -/
def detectLanguagePercentages (text : JStr) : LangAnalysis :=
  let letters := text.filter (fun c => !isStrippedChar c)
  let totalLetters := letters.length
  if totalLetters = 0 then zeroAnalysis
  else
    let ac := (letters.filter isArabicScript).length
    let ec := (letters.filter isEnglishLetter).length
    let oc := totalLetters - ac - ec
    let dominant :=
      if ac > ec ∧ ac > oc then "arabic".toList
      else if ec > ac ∧ ec > oc then "english".toList
      else if oc > ac ∧ oc > ec then "other".toList
      else "unknown".toList
    { arabic := centiPercent ac totalLetters
      english := centiPercent ec totalLetters
      other := centiPercent oc totalLetters
      total_chars := totalLetters
      dominant_language := dominant
      direction := if 10 * ac > 3 * totalLetters then "rtl".toList else "ltr".toList
      is_mixed := 10 * ac > totalLetters ∧ 10 * ec > totalLetters
      rawArabic := ac, rawEnglish := ec, rawOther := oc }

/-- Embedding of `detectTextDirection(text)` from `src/utils/langDetect.js`. -/
def detectTextDirection (text : JStr) : JStr :=
  let a := detectLanguagePercentages text
  if a.is_mixed then "mixed".toList else a.direction

/-- Embedding of `getLanguageCode(text)` from `src/utils/langDetect.js`. -/
def getLanguageCode (text : JStr) : JStr :=
  let a := detectLanguagePercentages text
  if a.is_mixed then "mixed".toList
  else if a.dominant_language = "arabic".toList then "ar".toList
  else if a.dominant_language = "english".toList then "en".toList
  else "unknown".toList

/-- The normalised body of one hashtag in `dedupeHashtags`: strip the
leading run of `#`, trim, lowercase. -/
def cleanTag (tag : JStr) : JStr :=
  jsLower (jsTrim (tag.dropWhile (fun c => c = '#')))

/-- One hashtag normalisation step of `dedupeHashtags` (`null` for blanks). -/
def normTag (tag : JStr) : Option JStr :=
  if cleanTag tag = [] then none else some ('#' :: cleanTag tag)

/-- Embedding of `dedupeHashtags(hashtags)` from `src/utils/dedupe.js`:
keep nonblank strings, strip the leading run of `#`, trim, lowercase,
re-prefix a single `#`, drop blanks, and deduplicate keeping first
occurrences. -/
def dedupeHashtags (hashtags : List JStr) : List JStr :=
  setDedup ((hashtags.filter (fun tag => jsTrim tag ≠ [])).filterMap normTag)

/-- Embedding of `dedupeEmojis(emojis)` from `src/utils/dedupe.js`. -/
def dedupeEmojis (emojis : List JStr) : List JStr :=
  setDedup ((emojis.filter (fun e => jsTrim e ≠ [])).map jsTrim)

/-- Characters accepted inside a hashtag by the extraction regex of
`src/utils/dedupe.js`. -/
def isHashtagChar (c : Char) : Bool :=
  (97 ≤ c.toNat && c.toNat ≤ 122) || (65 ≤ c.toNat && c.toNat ≤ 90) ||
  (48 ≤ c.toNat && c.toNat ≤ 57) || c.toNat == 95 ||
  (0x600 ≤ c.toNat && c.toNat ≤ 0x6FF) ||
  (0x750 ≤ c.toNat && c.toNat ≤ 0x77F) ||
  (0x8A0 ≤ c.toNat && c.toNat ≤ 0x8FF) ||
  (0xFE70 ≤ c.toNat && c.toNat ≤ 0xFEFF)

/-- Fuel-driven scan for the raw regex matches of `/#[A-Za-z0-9_...]+/g`. -/
def hashtagMatchesGo : Nat → JStr → List JStr
  | 0, _ => []
  | _ + 1, [] => []
  | fuel + 1, c :: rest =>
    if c = '#' then
      let run := rest.takeWhile isHashtagChar
      if run ≠ [] then ('#' :: run) :: hashtagMatchesGo fuel (rest.drop run.length)
      else hashtagMatchesGo fuel rest
    else hashtagMatchesGo fuel rest

/-- Raw regex matches of `/#[A-Za-z0-9_...]+/g` on a string. -/
def hashtagMatches (l : JStr) : List JStr := hashtagMatchesGo (l.length + 1) l

/-- Embedding of `extractHashtagsFromText(text)` from `src/utils/dedupe.js`. -/
def extractHashtagsFromText (text : JStr) : List JStr :=
  match hashtagMatches text with
  | [] => []
  | ms => dedupeHashtags ms

/-- Code points matched by the emoji extraction regex of
`src/utils/dedupe.js` (each alternative is a one code point class). -/
def isEmojiChar (c : Char) : Bool :=
  (0x1F300 ≤ c.toNat && c.toNat ≤ 0x1F9FF) ||
  (0x2600 ≤ c.toNat && c.toNat ≤ 0x26FF) ||
  (0x2700 ≤ c.toNat && c.toNat ≤ 0x27BF) ||
  (0x1F1E0 ≤ c.toNat && c.toNat ≤ 0x1F1FF)

/-- Embedding of `extractEmojisFromText(text)` from `src/utils/dedupe.js`. -/
def extractEmojisFromText (text : JStr) : List JStr :=
  match (text.filter isEmojiChar).map (fun c => [c]) with
  | [] => []
  | ms => dedupeEmojis ms

/-- Image suggestion object built by `generateImageSuggestion`
(`src/services/localTemplates.js`).  `matched_keywords` is present only on
pattern matches, absent on style fallbacks, modelled by an `Option`. -/
structure ImageSug where
  itype : JStr
  content : JStr
  keywords : List JStr
  template : JStr
  matched_keywords : Option (List JStr)
deriving DecidableEq, Repr

/-- A tweet object of the local generation pipeline
(`src/services/localTemplates.js`). -/
structure Tweet where
  index : Nat
  text : JStr
  char_count : Nat
  warnings : List JStr
  hashtags : List JStr
  emoji_suggestions : List JStr
  cta : Option JStr
  image_suggestion : Option ImageSug
deriving DecidableEq, Repr

/-- Fuel-driven inner collection loop of `balanceHashtagsAcrossThread`:
starting at `start`, walk up to `m` positions (mod pool size), collecting
tags not yet collected for this tweet.  The wrapper passes fuel `m`, enough
for the loop bound `i < m`. -/
def collectTagsGo (pool : List JStr) (start m : Nat) : Nat → Nat → List JStr → List JStr
  | 0, _, acc => acc
  | fuel + 1, i, acc =>
    if i < m ∧ acc.length < m then
      let hashtag := pool.getD ((start + i) % pool.length) []
      let acc' := if hashtag ≠ [] ∧ ¬ acc.contains hashtag then acc ++ [hashtag] else acc
      collectTagsGo pool start m fuel (i + 1) acc'
    else acc

/-- The inner collection loop of `balanceHashtagsAcrossThread`. -/
def collectTags (pool : List JStr) (start m : Nat) : List JStr :=
  collectTagsGo pool start m m 0 []

/-- Per-index distribution map of `balanceHashtagsAcrossThread`. -/
def balanceGo (pool : List JStr) (m : Nat) : Nat → List Tweet → List Tweet
  | _, [] => []
  | i, t :: ts =>
    let start := (i * m) % pool.length
    { t with hashtags := collectTags pool start m } :: balanceGo pool m (i + 1) ts

/-- Embedding of `balanceHashtagsAcrossThread(tweets, maxPerTweet)` from
`src/utils/dedupe.js`: pool all hashtags, deduplicate, then redistribute
round-robin starting at offset `(i * maxPerTweet) % poolSize`. -/
def balanceHashtagsAcrossThread (tweets : List Tweet) (maxPerTweet : Nat) : List Tweet :=
  if tweets = [] then tweets
  else
    let allHashtags := tweets.foldl (fun acc t => acc ++ t.hashtags) []
    let uniqueHashtags := dedupeHashtags allHashtags
    if uniqueHashtags = [] then tweets.map (fun t => { t with hashtags := [] })
    else balanceGo uniqueHashtags maxPerTweet 0 tweets

/-- Embedding of `dedupeHashtagsAndEmojis(tweets)` from `src/utils/dedupe.js`:
merge each tweet's lists with tags/emoji extracted from its text, dedupe,
then balance hashtags across the thread (default `maxPerTweet = 3`). -/
def dedupeHashtagsAndEmojis (tweets : List Tweet) : List Tweet :=
  balanceHashtagsAcrossThread
    (tweets.map (fun t =>
      { t with
        hashtags := dedupeHashtags (t.hashtags ++ extractHashtagsFromText t.text)
        emoji_suggestions := dedupeEmojis (t.emoji_suggestions ++ extractEmojisFromText t.text) }))
    3

/-- The `HASHTAG_DICTIONARY` of `src/services/hashtagGenerator.js`, as an
association list (topic, english pool, arabic pool) in source order. -/
def hashtagDictionary : List (JStr × List JStr × List JStr) :=
  [("ai".toList,
   ["#AI".toList,
    "#MachineLearning".toList,
    "#DeepLearning".toList,
    "#NeuralNetworks".toList,
    "#ArtificialIntelligence".toList,
    "#MLOps".toList,
    "#DataScience".toList,
    "#TechTrends".toList],
   ["#\u0630\u0643\u0627\u0621_\u0627\u0635\u0637\u0646\u0627\u0639\u064a".toList,
    "#\u062a\u0639\u0644\u0645_\u0622\u0644\u064a".toList,
    "#\u062a\u0642\u0646\u064a\u0629".toList,
    "#\u0627\u0628\u062a\u0643\u0627\u0631".toList]),
  ("programming".toList,
   ["#Programming".toList,
    "#Coding".toList,
    "#WebDev".toList,
    "#JavaScript".toList,
    "#Python".toList,
    "#React".toList,
    "#NodeJS".toList,
    "#FullStack".toList],
   ["#\u0628\u0631\u0645\u062c\u0629".toList,
    "#\u062a\u0637\u0648\u064a\u0631".toList,
    "#\u0645\u0637\u0648\u0631".toList,
    "#\u0643\u0648\u062f".toList]),
  ("writing".toList,
   ["#Writing".toList,
    "#ContentCreation".toList,
    "#Storytelling".toList,
    "#Copywriting".toList,
    "#BlogWriting".toList,
    "#CreativeWriting".toList,
    "#WritingTips".toList],
   ["#\u0643\u062a\u0627\u0628\u0629".toList,
    "#\u0645\u062d\u062a\u0648\u0649".toList,
    "#\u0642\u0635\u0635".toList,
    "#\u0625\u0628\u062f\u0627\u0639".toList]),
  ("education".toList,
   ["#Education".toList,
    "#Learning".toList,
    "#OnlineLearning".toList,
    "#Skills".toList,
    "#Knowledge".toList,
    "#StudyTips".toList,
    "#PersonalGrowth".toList],
   ["#\u062a\u0639\u0644\u064a\u0645".toList,
    "#\u062a\u0639\u0644\u0645".toList,
    "#\u0645\u0647\u0627\u0631\u0627\u062a".toList,
    "#\u0645\u0639\u0631\u0641\u0629".toList]),
  ("business".toList,
   ["#Business".toList,
    "#Entrepreneurship".toList,
    "#Startup".toList,
    "#Leadership".toList,
    "#Marketing".toList,
    "#Strategy".toList,
    "#Innovation".toList],
   ["#\u0623\u0639\u0645\u0627\u0644".toList,
    "#\u0631\u064a\u0627\u062f\u0629".toList,
    "#\u0642\u064a\u0627\u062f\u0629".toList,
    "#\u062a\u0633\u0648\u064a\u0642".toList]),
  ("productivity".toList,
   ["#Productivity".toList,
    "#TimeManagement".toList,
    "#Efficiency".toList,
    "#WorkLife".toList,
    "#SelfImprovement".toList,
    "#Mindset".toList,
    "#Goals".toList],
   ["#\u0625\u0646\u062a\u0627\u062c\u064a\u0629".toList,
    "#\u062a\u0637\u0648\u064a\u0631_\u0627\u0644\u0630\u0627\u062a".toList,
    "#\u0623\u0647\u062f\u0627\u0641".toList,
    "#\u0646\u062c\u0627\u062d".toList]),
  ("technology".toList,
   ["#Technology".toList,
    "#Innovation".toList,
    "#DigitalTransformation".toList,
    "#TechNews".toList,
    "#Future".toList,
    "#Automation".toList,
    "#CloudComputing".toList],
   ["#\u062a\u0642\u0646\u064a\u0629".toList,
    "#\u0627\u0628\u062a\u0643\u0627\u0631".toList,
    "#\u062a\u062d\u0648\u0644_\u0631\u0642\u0645\u064a".toList,
    "#\u0645\u0633\u062a\u0642\u0628\u0644".toList]),
  ("design".toList,
   ["#Design".toList,
    "#UXDesign".toList,
    "#UIDesign".toList,
    "#CreativeDesign".toList,
    "#GraphicDesign".toList,
    "#UserExperience".toList,
    "#DesignThinking".toList],
   ["#\u062a\u0635\u0645\u064a\u0645".toList,
    "#\u0625\u0628\u062f\u0627\u0639".toList,
    "#\u0641\u0646".toList,
    "#\u062c\u0631\u0627\u0641\u064a\u0643".toList]),
  ("finance".toList,
   ["#Finance".toList,
    "#Investment".toList,
    "#Trading".toList,
    "#Cryptocurrency".toList,
    "#FinTech".toList,
    "#PersonalFinance".toList,
    "#WealthBuilding".toList],
   ["#\u0645\u0627\u0644\u064a\u0629".toList,
    "#\u0627\u0633\u062a\u062b\u0645\u0627\u0631".toList,
    "#\u062a\u062f\u0627\u0648\u0644".toList,
    "#\u062b\u0631\u0648\u0629".toList]),
  ("health".toList,
   ["#Health".toList,
    "#Wellness".toList,
    "#Fitness".toList,
    "#MentalHealth".toList,
    "#Nutrition".toList,
    "#HealthyLifestyle".toList,
    "#SelfCare".toList],
   ["#\u0635\u062d\u0629".toList,
    "#\u0644\u064a\u0627\u0642\u0629".toList,
    "#\u0639\u0627\u0641\u064a\u0629".toList,
    "#\u062a\u063a\u0630\u064a\u0629".toList]),
  ("social".toList,
   ["#SocialMedia".toList,
    "#DigitalMarketing".toList,
    "#ContentStrategy".toList,
    "#Branding".toList,
    "#Influence".toList,
    "#OnlinePresence".toList],
   ["#\u0648\u0633\u0627\u0626\u0644_\u0627\u0644\u062a\u0648\u0627\u0635\u0644".toList,
    "#\u062a\u0633\u0648\u064a\u0642_\u0631\u0642\u0645\u064a".toList,
    "#\u0639\u0644\u0627\u0645\u0629_\u062a\u062c\u0627\u0631\u064a\u0629".toList,
    "#\u062a\u0623\u062b\u064a\u0631".toList]),
  ("general".toList,
   ["#Tips".toList,
    "#Insights".toList,
    "#Thoughts".toList,
    "#Wisdom".toList,
    "#Experience".toList,
    "#Advice".toList,
    "#Perspective".toList],
   ["#\u0646\u0635\u0627\u0626\u062d".toList,
    "#\u062e\u0628\u0631\u0629".toList,
    "#\u062d\u0643\u0645\u0629".toList,
    "#\u0631\u0623\u064a".toList])]

/-- The `KEYWORD_PATTERNS` of `src/services/hashtagGenerator.js`: for each
topic, the alternatives of the `\b(...)\b` case-insensitive regex, in
source order. -/
def keywordPatterns : List (JStr × List JStr) :=
  [("ai".toList,
   ["ai".toList,
    "artificial intelligence".toList,
    "machine learning".toList,
    "deep learning".toList,
    "neural".toList,
    "algorithm".toList,
    "automation".toList,
    "chatgpt".toList,
    "gpt".toList,
    "llm".toList,
    "\u0630\u0643\u0627\u0621 \u0627\u0635\u0637\u0646\u0627\u0639\u064a".toList,
    "\u062a\u0639\u0644\u0645 \u0622\u0644\u064a".toList]),
  ("programming".toList,
   ["programming".toList,
    "coding".toList,
    "developer".toList,
    "javascript".toList,
    "python".toList,
    "react".toList,
    "node".toList,
    "html".toList,
    "css".toList,
    "api".toList,
    "database".toList,
    "\u0628\u0631\u0645\u062c\u0629".toList,
    "\u0645\u0637\u0648\u0631".toList,
    "\u0643\u0648\u062f".toList]),
  ("writing".toList,
   ["writing".toList,
    "content".toList,
    "story".toList,
    "blog".toList,
    "article".toList,
    "copywriting".toList,
    "author".toList,
    "publish".toList,
    "\u0643\u062a\u0627\u0628\u0629".toList,
    "\u0645\u062d\u062a\u0648\u0649".toList,
    "\u0642\u0635\u0629".toList,
    "\u0645\u0642\u0627\u0644".toList]),
  ("education".toList,
   ["education".toList,
    "learning".toList,
    "study".toList,
    "course".toList,
    "tutorial".toList,
    "knowledge".toList,
    "skill".toList,
    "teach".toList,
    "\u062a\u0639\u0644\u064a\u0645".toList,
    "\u062a\u0639\u0644\u0645".toList,
    "\u062f\u0631\u0627\u0633\u0629".toList,
    "\u0645\u0647\u0627\u0631\u0629".toList]),
  ("business".toList,
   ["business".toList,
    "startup".toList,
    "entrepreneur".toList,
    "company".toList,
    "marketing".toList,
    "sales".toList,
    "strategy".toList,
    "\u0623\u0639\u0645\u0627\u0644".toList,
    "\u0634\u0631\u0643\u0629".toList,
    "\u062a\u0633\u0648\u064a\u0642".toList,
    "\u0627\u0633\u062a\u0631\u0627\u062a\u064a\u062c\u064a\u0629".toList]),
  ("productivity".toList,
   ["productivity".toList,
    "efficiency".toList,
    "time management".toList,
    "goal".toList,
    "habit".toList,
    "focus".toList,
    "workflow".toList,
    "\u0625\u0646\u062a\u0627\u062c\u064a\u0629".toList,
    "\u0647\u062f\u0641".toList,
    "\u0639\u0627\u062f\u0629".toList]),
  ("technology".toList,
   ["technology".toList,
    "tech".toList,
    "innovation".toList,
    "digital".toList,
    "cloud".toList,
    "software".toList,
    "hardware".toList,
    "\u062a\u0642\u0646\u064a\u0629".toList,
    "\u0627\u0628\u062a\u0643\u0627\u0631".toList,
    "\u0631\u0642\u0645\u064a".toList]),
  ("design".toList,
   ["design".toList,
    "ux".toList,
    "ui".toList,
    "creative".toList,
    "visual".toList,
    "graphic".toList,
    "interface".toList,
    "\u062a\u0635\u0645\u064a\u0645".toList,
    "\u0625\u0628\u062f\u0627\u0639".toList,
    "\u0648\u0627\u062c\u0647\u0629".toList]),
  ("finance".toList,
   ["finance".toList,
    "investment".toList,
    "trading".toList,
    "money".toList,
    "crypto".toList,
    "bitcoin".toList,
    "financial".toList,
    "\u0645\u0627\u0644\u064a\u0629".toList,
    "\u0627\u0633\u062a\u062b\u0645\u0627\u0631".toList,
    "\u062a\u062f\u0627\u0648\u0644".toList,
    "\u0645\u0627\u0644".toList]),
  ("health".toList,
   ["health".toList,
    "fitness".toList,
    "wellness".toList,
    "nutrition".toList,
    "mental health".toList,
    "exercise".toList,
    "\u0635\u062d\u0629".toList,
    "\u0644\u064a\u0627\u0642\u0629".toList,
    "\u062a\u063a\u0630\u064a\u0629".toList]),
  ("social".toList,
   ["social media".toList,
    "marketing".toList,
    "brand".toList,
    "influence".toList,
    "twitter".toList,
    "instagram".toList,
    "\u0648\u0633\u0627\u0626\u0644 \u0627\u0644\u062a\u0648\u0627\u0635\u0644".toList,
    "\u062a\u0633\u0648\u064a\u0642".toList,
    "\u0639\u0644\u0627\u0645\u0629 \u062a\u062c\u0627\u0631\u064a\u0629".toList])]

/-- `THREAD_HASHTAGS.english` from `src/services/hashtagGenerator.js`. -/
def threadHashtagsEnglish : List JStr := ["#Thread".toList, "#TwitterThread".toList, "#TweetThread".toList]

/-- `THREAD_HASHTAGS.arabic` from `src/services/hashtagGenerator.js`. -/
def threadHashtagsArabic : List JStr := ["#\u062e\u064a\u0637".toList, "#\u062e\u064a\u0637_\u062a\u0648\u064a\u062a\u0631".toList]

/-- JS regex word characters (`\w` = ASCII letters, digits, underscore). -/
def isWordChar (c : Char) : Bool :=
  (97 ≤ c.toNat && c.toNat ≤ 122) || (65 ≤ c.toNat && c.toNat ≤ 90) ||
  (48 ≤ c.toNat && c.toNat ≤ 57) || c.toNat == 95

/-- Word-boundary test between two optional adjacent characters (`\b`):
a boundary exists iff exactly one side is a word character, absent sides
counting as non-word. -/
def wordBoundary (a b : Option Char) : Bool :=
  (match a with | none => false | some c => isWordChar c) ≠
  (match b with | none => false | some c => isWordChar c)

/-- Whether `kw` matches at the start of `l` with `\b` on both sides,
`prev` being the character before `l`. -/
def wordMatchAt (kw : JStr) (prev : Option Char) (l : JStr) : Bool :=
  kw.isPrefixOf l &&
  wordBoundary prev kw.head? &&
  wordBoundary kw.getLast? (l.drop kw.length).head?

/-- Whether `kw` occurs in `l` preceded by `prev` with `\b` on both sides. -/
def wordMatchGo (kw : JStr) : Option Char → JStr → Bool
  | prev, [] => wordMatchAt kw prev []
  | prev, c :: cs => wordMatchAt kw prev (c :: cs) || wordMatchGo kw (some c) cs

/-- Model of `/\b(kw1|kw2|...)\b/i.test(text)` for an already lowercased
text and lowercase alternatives. -/
def testKeywords (kws : List JStr) (text : JStr) : Bool :=
  kws.any (fun kw => wordMatchGo kw none text)

/-- Embedding of `detectTopics(text)` from `src/services/hashtagGenerator.js`. -/
def detectTopics (text : JStr) : List JStr :=
  if text = [] then ["general".toList]
  else
    let lower := jsLower text
    let topics := (keywordPatterns.filter (fun p => testKeywords p.2 lower)).map (·.1)
    if topics = [] then ["general".toList] else topics

/-- Lookup in the hashtag dictionary. -/
def dictLookup (topic : JStr) : Option (List JStr × List JStr) :=
  (hashtagDictionary.find? (fun e => e.1 = topic)).map (·.2)

/-- English pool of a topic (empty when absent). -/
def dictEnglish (topic : JStr) : List JStr :=
  match dictLookup topic with | some p => p.1 | none => []

/-- Arabic pool of a topic (empty when absent). -/
def dictArabic (topic : JStr) : List JStr :=
  match dictLookup topic with | some p => p.2 | none => []

/-- Options object of `generateTweetHashtags`.  `englishShare10` holds ten
times the source `englishRatio` (the pipeline always passes `0.7`, carried
exactly as `7`). -/
structure HtOptions where
  maxHashtags : Nat
  englishShare10 : Nat
  includeThreadHashtag : Bool
  forceArabic : Bool
deriving DecidableEq, Repr

/-- Add to a JS `Set` modelled as a duplicate-free list in insertion order. -/
def setAdd (s : List JStr) (x : JStr) : List JStr :=
  if s.contains x then s else s ++ [x]

/-- The general-pool refill loop of `generateTweetHashtags`: while below the
cap, append the first general-pool tag not already chosen or used. -/
def fillGeneralGo (general used : List JStr) (m : Nat) : Nat → List JStr → List JStr
  | 0, hs => hs
  | f + 1, hs =>
    if hs.length < m then
      match general.filter (fun tag => !hs.contains tag && !used.contains tag) with
      | [] => hs
      | a :: _ => fillGeneralGo general used m f (hs ++ [a])
    else hs

/-- Embedding of `generateTweetHashtags(text, options, usedHashtags)` from
`src/services/hashtagGenerator.js`.  Returns the tweet's hashtags together
with the updated used-set (the source mutates the passed `Set`). -/
def generateTweetHashtags (text : JStr) (o : HtOptions) (used : List JStr) :
    List JStr × List JStr :=
  let langAnalysis := detectLanguagePercentages text
  let topics := detectTopics text
  let isArabicContent := langAnalysis.arabic > 3000
  let englishCount := ceilDiv (o.maxHashtags * o.englishShare10) 10
  let arabicCount := o.maxHashtags - englishCount
  let englishHashtags := topics.foldl (fun acc t => acc ++ dictEnglish t) []
  let availableEnglish :=
    ((setDedup englishHashtags).filter (fun tag => !used.contains tag)).take englishCount
  let hashtags1 := availableEnglish
  let hashtags2 :=
    if (isArabicContent || o.forceArabic) && arabicCount > 0 then
      let arabicHashtags := topics.foldl (fun acc t => acc ++ dictArabic t) []
      hashtags1 ++
        ((setDedup arabicHashtags).filter (fun tag => !used.contains tag)).take arabicCount
    else hashtags1
  let hashtags3 :=
    if o.includeThreadHashtag then
      let th := if isArabicContent then threadHashtagsArabic.getD 0 []
                else threadHashtagsEnglish.getD 0 []
      if ¬ used.contains th then th :: hashtags2 else hashtags2
    else hashtags2
  let general := if isArabicContent then dictArabic "general".toList
                 else dictEnglish "general".toList
  let hashtags4 := fillGeneralGo general used o.maxHashtags o.maxHashtags hashtags3
  let used' := hashtags4.foldl setAdd used
  (hashtags4.take o.maxHashtags, used')

/-- The per-tweet fold of `generateThreadHashtags` with the shared used-set. -/
def gthGo (n : Nat) (o : HtOptions) : Nat → List JStr → List Tweet → List Tweet
  | _, _, [] => []
  | i, used, t :: ts =>
    let opts : HtOptions :=
      { o with
        includeThreadHashtag := i = 0
        maxHashtags := if i = n - 1 then 4 else 3 }
    let r := generateTweetHashtags t.text opts used
    { t with hashtags := r.1 } :: gthGo n o (i + 1) r.2 ts

/-- Embedding of `generateThreadHashtags(thread, options)` from
`src/services/hashtagGenerator.js`. -/
def generateThreadHashtags (thread : List Tweet) (o : HtOptions) : List Tweet :=
  if thread = [] then thread
  else gthGo thread.length o 0 [] thread

/-- The style prefix pools of `getStylePrefixes`
(`src/services/localTemplates.js`), exactly as the repository file stores
them (the file holds the prefix emoji as double-encoded BMP sequences, so
the embedded strings reproduce the file byte for byte). -/
def stylePrefixes (style : JStr) (isArabicB : Bool) : List JStr :=
  if style = "educational".toList then
    (if isArabicB then ["\u011f\u0178\u2019\u00a1 \u00d9\u2020\u00d8\u00b5\u00d9\u0160\u00d8\u00ad\u00d8\u00a9:".toList, "\u011f\u0178\u201c\u0161 \u00d8\u00aa\u00d8\u00b9\u00d9\u201e\u00d9\u2026:".toList, "\u00e2\u0153\u00a8 \u00d9\u00d9\u0192\u00d8\u00b1\u00d8\u00a9:".toList]
     else ["\u011f\u0178\u2019\u00a1 Tip:".toList, "\u011f\u0178\u201c\u0161 Learn:".toList, "\u00e2\u0153\u00a8 Insight:".toList])
  else if style = "technical".toList then
    (if isArabicB then ["\u011f\u0178\u201d\u00a7 \u00d8\u00aa\u00d9\u201a\u00d9\u2020\u00d9\u0160:".toList, "\u00e2\u0161\u2122\u00ef\u00b8 \u00d8\u00b7\u00d8\u00b1\u00d9\u0160\u00d9\u201a\u00d8\u00a9:".toList, "\u011f\u0178\u203a\u00a0\u00ef\u00b8 \u00d8\u00ad\u00d9\u201e:".toList]
     else ["\u011f\u0178\u201d\u00a7 Technical:".toList, "\u00e2\u0161\u2122\u00ef\u00b8 Method:".toList, "\u011f\u0178\u203a\u00a0\u00ef\u00b8 Solution:".toList])
  else if style = "concise".toList then
    (if isArabicB then ["\u011f\u0178\u201c\u0152 \u00d8\u00ae\u00d9\u201e\u00d8\u00a7\u00d8\u00b5\u00d8\u00a9:".toList, "\u00e2\u0161\u00a1 \u00d8\u00b3\u00d8\u00b1\u00d9\u0160\u00d8\u00b9:".toList, "\u011f\u0178\u00af \u00d9\u2026\u00d8\u00a8\u00d8\u00a7\u00d8\u00b4\u00d8\u00b1:".toList]
     else ["\u011f\u0178\u201c\u0152 Summary:".toList, "\u00e2\u0161\u00a1 Quick:".toList, "\u011f\u0178\u00af Direct:".toList])
  else if style = "engaging".toList then
    (if isArabicB then ["\u011f\u0178\u201d\u00a5 \u00d9\u2026\u00d9\u2021\u00d9\u2026:".toList, "\u011f\u0178\u2018\u20ac \u00d8\u00a7\u00d9\u2020\u00d8\u00aa\u00d8\u00a8\u00d9\u2021:".toList, "\u011f\u0178\u0161\u20ac \u00d8\u00b1\u00d8\u00a7\u00d8\u00a6\u00d8\u00b9:".toList]
     else ["\u011f\u0178\u201d\u00a5 Important:".toList, "\u011f\u0178\u2018\u20ac Notice:".toList, "\u011f\u0178\u0161\u20ac Amazing:".toList])
  else if style = "professional".toList then
    (if isArabicB then ["\u011f\u0178\u201c\u0160 \u00d8\u00aa\u00d8\u00ad\u00d9\u201e\u00d9\u0160\u00d9\u201e:".toList, "\u011f\u0178\u2019\u00bc \u00d8\u00ae\u00d8\u00a8\u00d8\u00b1\u00d8\u00a9:".toList, "\u011f\u0178\u201c\u02c6 \u00d8\u00a7\u00d8\u00b3\u00d8\u00aa\u00d8\u00b1\u00d8\u00a7\u00d8\u00aa\u00d9\u0160\u00d8\u00ac\u00d9\u0160\u00d8\u00a9:".toList]
     else ["\u011f\u0178\u201c\u0160 Analysis:".toList, "\u011f\u0178\u2019\u00bc Experience:".toList, "\u011f\u0178\u201c\u02c6 Strategy:".toList])
  else []

/-- The `styleEmojis` pools of `generateEmojis`. -/
def styleEmojis (style : JStr) : List JStr :=
  if style = "educational".toList then ["\u011f\u0178\u201c\u0161".toList, "\u011f\u0178\u2019\u00a1".toList, "\u00e2\u0153\u00a8".toList, "\u011f\u0178\u00af".toList, "\u011f\u0178\u201c\u2013".toList]
  else if style = "technical".toList then ["\u011f\u0178\u201d\u00a7".toList, "\u00e2\u0161\u2122\u00ef\u00b8".toList, "\u011f\u0178\u203a\u00a0\u00ef\u00b8".toList, "\u011f\u0178\u2019\u00bb".toList, "\u011f\u0178\u201d\u00ac".toList]
  else if style = "concise".toList then ["\u011f\u0178\u201c\u0152".toList, "\u00e2\u0161\u00a1".toList, "\u011f\u0178\u00af".toList, "\u00e2\u0153\u2026".toList, "\u00e2\u00ad".toList]
  else if style = "engaging".toList then ["\u011f\u0178\u201d\u00a5".toList, "\u011f\u0178\u2018\u20ac".toList, "\u011f\u0178\u0161\u20ac".toList, "\u011f\u0178\u2019\u00ab".toList, "\u011f\u0178\u2030".toList]
  else if style = "professional".toList then ["\u011f\u0178\u201c\u0160".toList, "\u011f\u0178\u2019\u00bc".toList, "\u011f\u0178\u201c\u02c6".toList, "\u011f\u0178\u2020".toList, "\u00e2\u0161\u00a1".toList]
  else []

/-- Content-emoji trigger keywords and pushed emoji (important case of
`generateEmojis`). -/
def trigKwImportant : List JStr := ["important".toList, "\u00d9\u2026\u00d9\u2021\u00d9\u2026".toList]

/-- Emoji pushed for the important trigger. -/
def trigEmImportant : List JStr := ["\u00e2\u0161\u00a0\u00ef\u00b8".toList, "\u011f\u0178\u0161\u00a8".toList, "\u011f\u0178\u201c\u00a2".toList]

/-- Content-emoji trigger keywords and pushed emoji (success case of
`generateEmojis`). -/
def trigKwSuccess : List JStr := ["success".toList, "\u00d9\u2020\u00d8\u00ac\u00d8\u00ad".toList]

/-- Emoji pushed for the success trigger. -/
def trigEmSuccess : List JStr := ["\u011f\u0178\u2030".toList, "\u011f\u0178\u2020".toList, "\u00e2\u0153\u2026".toList]

/-- Content-emoji trigger keywords and pushed emoji (money case of
`generateEmojis`). -/
def trigKwMoney : List JStr := ["money".toList, "\u00d9\u2026\u00d8\u00a7\u00d9\u201e".toList]

/-- Emoji pushed for the money trigger. -/
def trigEmMoney : List JStr := ["\u011f\u0178\u2019\u00b0".toList, "\u011f\u0178\u2019\u00b5".toList, "\u011f\u0178\u201c\u02c6".toList]

/-- Content-emoji trigger keywords and pushed emoji (time case of
`generateEmojis`). -/
def trigKwTime : List JStr := ["time".toList, "\u00d9\u02c6\u00d9\u201a\u00d8\u00aa".toList]

/-- Emoji pushed for the time trigger. -/
def trigEmTime : List JStr := ["\u00e2\u00b0".toList, "\u00e2\u0152\u0161".toList, "\u00e2\u00b3".toList]

/-- Thread-start indicator emoji prepended for the first tweet. -/
def threadStartEmojis : List JStr := ["\u011f\u0178\u00a7\u00b5".toList, "\u011f\u0178\u2018\u2021".toList]

/-- The CTA pools of `generateCTA` (`src/services/localTemplates.js`). -/
def ctaPools (style : JStr) (isArabicB : Bool) : List JStr :=
  if style = "educational".toList then
    (if isArabicB then ["\u00d8\u00b4\u00d8\u00a7\u00d8\u00b1\u00d9\u0192\u00d9\u2020\u00d8\u00a7 \u00d8\u00b1\u00d8\u00a3\u00d9\u0160\u00d9\u0192 \u011f\u0178\u2018\u2021".toList, "\u00d9\u2026\u00d8\u00a7 \u00d8\u00b1\u00d8\u00a3\u00d9\u0160\u00d9\u0192 \u00d9\u00d9\u0160 \u00d9\u2021\u00d8\u00b0\u00d8\u00a7\u00d8\u0178 \u011f\u0178\u2019\u00ad".toList, "\u00d9\u2021\u00d9\u201e \u00d8\u00aa\u00d8\u00b7\u00d8\u00a8\u00d9\u201a \u00d9\u2021\u00d8\u00b0\u00d8\u00a7\u00d8\u0178 \u011f\u0178\u00a4\u201d".toList]
     else ["Share your thoughts \u011f\u0178\u2018\u2021".toList, "What do you think? \u011f\u0178\u2019\u00ad".toList, "Do you apply this? \u011f\u0178\u00a4\u201d".toList])
  else if style = "technical".toList then
    (if isArabicB then ["\u00d8\u00ac\u00d8\u00b1\u00d8\u00a8 \u00d9\u02c6\u00d8\u00a3\u00d8\u00ae\u00d8\u00a8\u00d8\u00b1\u00d9\u2020\u00d8\u00a7 \u011f\u0178\u201d\u00a7".toList, "\u00d8\u00b4\u00d8\u00a7\u00d8\u00b1\u00d9\u0192 \u00d8\u00aa\u00d8\u00ac\u00d8\u00b1\u00d8\u00a8\u00d8\u00aa\u00d9\u0192 \u011f\u0178\u2019\u00bb".toList, "\u00d9\u2021\u00d9\u201e \u00d9\u02c6\u00d8\u00a7\u00d8\u00ac\u00d9\u2021\u00d8\u00aa \u00d9\u2021\u00d8\u00b0\u00d8\u00a7\u00d8\u0178 \u00e2\u0161\u2122\u00ef\u00b8".toList]
     else ["Try it and let us know \u011f\u0178\u201d\u00a7".toList, "Share your experience \u011f\u0178\u2019\u00bb".toList, "Have you faced this? \u00e2\u0161\u2122\u00ef\u00b8".toList])
  else if style = "concise".toList then
    (if isArabicB then ["\u00d8\u00b1\u00d8\u00a3\u00d9\u0160\u00d9\u0192\u00d8\u0178 \u011f\u0178\u2018\u2021".toList, "\u00d8\u00aa\u00d8\u00ac\u00d8\u00b1\u00d8\u00a8\u00d8\u00aa\u00d9\u0192\u00d8\u0178 \u011f\u0178\u2019\u00ad".toList, "\u00d9\u2026\u00d9\u00d9\u0160\u00d8\u00af\u00d8\u0178 \u00e2\u0153\u00a8".toList]
     else ["Your take? \u011f\u0178\u2018\u2021".toList, "Your experience? \u011f\u0178\u2019\u00ad".toList, "Helpful? \u00e2\u0153\u00a8".toList])
  else if style = "engaging".toList then
    (if isArabicB then ["\u00d8\u00b4\u00d8\u00a7\u00d8\u00b1\u00d9\u0192 \u00d8\u00a7\u00d9\u201e\u00d9\u201a\u00d8\u00b5\u00d8\u00a9! \u011f\u0178\u0161\u20ac".toList, "\u00d8\u00b9\u00d9\u201e\u00d9\u201a \u00d8\u00a8\u00d8\u00b1\u00d8\u00a3\u00d9\u0160\u00d9\u0192! \u011f\u0178\u201d\u00a5".toList, "\u00d9\u02c6\u00d8\u00a3\u00d9\u2020\u00d8\u00aa\u00d8\u0178 \u011f\u0178\u2018\u20ac".toList]
     else ["Share the story! \u011f\u0178\u0161\u20ac".toList, "Drop your opinion! \u011f\u0178\u201d\u00a5".toList, "What about you? \u011f\u0178\u2018\u20ac".toList])
  else if style = "professional".toList then
    (if isArabicB then ["\u00d8\u00b4\u00d8\u00a7\u00d8\u00b1\u00d9\u0192\u00d9\u2020\u00d8\u00a7 \u00d8\u00ae\u00d8\u00a8\u00d8\u00b1\u00d8\u00aa\u00d9\u0192 \u011f\u0178\u2019\u00bc".toList, "\u00d9\u2026\u00d8\u00a7 \u00d8\u00a7\u00d8\u00b3\u00d8\u00aa\u00d8\u00b1\u00d8\u00a7\u00d8\u00aa\u00d9\u0160\u00d8\u00ac\u00d9\u0160\u00d8\u00aa\u00d9\u0192\u00d8\u0178 \u011f\u0178\u201c\u0160".toList, "\u00d8\u00aa\u00d8\u00ac\u00d8\u00b1\u00d8\u00a8\u00d8\u00aa\u00d9\u0192\u00d8\u0178 \u011f\u0178\u00af".toList]
     else ["Share your expertise \u011f\u0178\u2019\u00bc".toList, "What's your strategy? \u011f\u0178\u201c\u0160".toList, "Your experience? \u011f\u0178\u00af".toList])
  else []

/-- Tone keyword triples of `detectTone`. -/
def toneWarningKws : List JStr := ["warning".toList, "careful".toList, "\u00d8\u00aa\u00d8\u00ad\u00d8\u00b0\u00d9\u0160\u00d8\u00b1".toList]
def toneExcitingKws : List JStr := ["exciting".toList, "amazing".toList, "\u00d8\u00b1\u00d8\u00a7\u00d8\u00a6\u00d8\u00b9".toList]
def toneImportantKws : List JStr := ["important".toList, "critical".toList, "\u00d9\u2026\u00d9\u2021\u00d9\u2026".toList]

/-- Tone suffixes appended by `detectTone`. -/
def toneSuffixWarning : JStr := " + warning".toList
def toneSuffixExcitement : JStr := " + excitement".toList
def toneSuffixUrgent : JStr := " + urgent".toList

/-- Thread summary structures of `generateThreadSummary`. -/
def threadSummaryOf (style : JStr) : JStr :=
  if style = "educational".toList then "Introduction \u00e2\u2020\u2019 Key Points \u00e2\u2020\u2019 Examples \u00e2\u2020\u2019 Conclusion".toList
  else if style = "technical".toList then "Problem \u00e2\u2020\u2019 Solution \u00e2\u2020\u2019 Implementation \u00e2\u2020\u2019 Results".toList
  else if style = "concise".toList then "Hook \u00e2\u2020\u2019 Main Points \u00e2\u2020\u2019 Summary".toList
  else if style = "engaging".toList then "Hook \u00e2\u2020\u2019 Story \u00e2\u2020\u2019 Insights \u00e2\u2020\u2019 CTA".toList
  else if style = "professional".toList then "Analysis \u00e2\u2020\u2019 Strategy \u00e2\u2020\u2019 Application \u00e2\u2020\u2019 Recommendations".toList
  else "Hook \u00e2\u2020\u2019 Content \u00e2\u2020\u2019 Conclusion".toList

/-- One entry of the `imagePatterns` table of `generateImageSuggestion`. -/
structure ImagePattern where
  trigKeywords : List JStr
  ptype : JStr
  pcontent : JStr
  pkeywords : List JStr
  ptemplate : JStr
  priority : Nat
deriving DecidableEq, Repr

/-- The `imagePatterns` table of `generateImageSuggestion`
(`src/services/localTemplates.js`), in source order. -/
def imagePatterns : List ImagePattern :=
  [{ trigKeywords := ["startup".toList, "entrepreneur".toList, "founding".toList, "business plan".toList, "venture".toList],
     ptype := "infographic".toList,
     pcontent := "Startup journey infographic".toList,
     pkeywords := ["startup".toList, "entrepreneur".toList, "journey".toList, "business".toList],
     ptemplate := "process".toList,
     priority := 10 },
   { trigKeywords := ["mvp".toList, "minimum viable product".toList, "product development".toList, "iterate".toList],
     ptype := "diagram".toList,
     pcontent := "Product development cycle".toList,
     pkeywords := ["mvp".toList, "product".toList, "development".toList, "iteration".toList],
     ptemplate := "process".toList,
     priority := 9 },
   { trigKeywords := ["team".toList, "hiring".toList, "talent".toList, "leadership".toList, "skills".toList],
     ptype := "infographic".toList,
     pcontent := "Team building visual".toList,
     pkeywords := ["team".toList, "leadership".toList, "skills".toList, "hiring".toList],
     ptemplate := "vertical_list".toList,
     priority := 8 },
   { trigKeywords := ["funding".toList, "investment".toList, "capital".toList, "money".toList, "revenue".toList],
     ptype := "chart".toList,
     pcontent := "Financial growth chart".toList,
     pkeywords := ["funding".toList, "growth".toList, "revenue".toList, "investment".toList],
     ptemplate := "horizontal_list".toList,
     priority := 8 },
   { trigKeywords := ["step".toList, "process".toList, "tutorial".toList, "guide".toList, "how to".toList, "method".toList],
     ptype := "infographic".toList,
     pcontent := "Step-by-step process guide".toList,
     pkeywords := ["tutorial".toList, "process".toList, "steps".toList, "guide".toList],
     ptemplate := "vertical_list".toList,
     priority := 7 },
   { trigKeywords := ["vs".toList, "versus".toList, "comparison".toList, "compare".toList, "difference".toList, "before".toList, "after".toList],
     ptype := "infographic".toList,
     pcontent := "Comparison analysis".toList,
     pkeywords := ["comparison".toList, "vs".toList, "analysis".toList, "differences".toList],
     ptemplate := "comparison".toList,
     priority := 7 },
   { trigKeywords := ["data".toList, "statistics".toList, "chart".toList, "graph".toList, "percentage".toList, "number".toList, "result".toList, "metric".toList],
     ptype := "chart".toList,
     pcontent := "Data visualization".toList,
     pkeywords := ["data".toList, "statistics".toList, "metrics".toList, "results".toList],
     ptemplate := "horizontal_list".toList,
     priority := 6 },
   { trigKeywords := ["tips".toList, "advice".toList, "list".toList, "points".toList, "factors".toList, "reasons".toList, "benefits".toList],
     ptype := "infographic".toList,
     pcontent := "Key insights infographic".toList,
     pkeywords := ["tips".toList, "list".toList, "insights".toList, "benefits".toList],
     ptemplate := "vertical_list".toList,
     priority := 6 },
   { trigKeywords := ["code".toList, "programming".toList, "software".toList, "app".toList, "website".toList, "algorithm".toList, "api".toList],
     ptype := "screenshot".toList,
     pcontent := "Code or interface showcase".toList,
     pkeywords := ["code".toList, "programming".toList, "tech".toList, "interface".toList],
     ptemplate := "highlight".toList,
     priority := 6 },
   { trigKeywords := ["strategy".toList, "plan".toList, "growth".toList, "success".toList, "framework".toList],
     ptype := "infographic".toList,
     pcontent := "Strategic framework diagram".toList,
     pkeywords := ["strategy".toList, "framework".toList, "growth".toList, "success".toList],
     ptemplate := "process".toList,
     priority := 5 },
   { trigKeywords := ["timeline".toList, "history".toList, "evolution".toList, "progress".toList, "journey".toList, "development".toList],
     ptype := "infographic".toList,
     pcontent := "Timeline progression".toList,
     pkeywords := ["timeline".toList, "history".toList, "progress".toList, "evolution".toList],
     ptemplate := "horizontal_list".toList,
     priority := 5 },
   { trigKeywords := ["problem".toList, "solution".toList, "fix".toList, "issue".toList, "challenge".toList, "resolve".toList],
     ptype := "diagram".toList,
     pcontent := "Problem-solution flow".toList,
     pkeywords := ["problem".toList, "solution".toList, "fix".toList, "challenge".toList],
     ptemplate := "comparison".toList,
     priority := 5 },
   { trigKeywords := ["quote".toList, "saying".toList, "insight".toList, "wisdom".toList, "lesson".toList, "principle".toList],
     ptype := "photo".toList,
     pcontent := "Inspirational quote card".toList,
     pkeywords := ["quote".toList, "insight".toList, "wisdom".toList, "inspiration".toList],
     ptemplate := "highlight".toList,
     priority := 4 }]

/-- The per-style fallback suggestions of `generateImageSuggestion`.
Each content is `label` ++ substring(0,50) ++ closing. -/
def styleImageFallback (segment style : JStr) : ImageSug :=
  if style = "educational".toList then
    { itype := "infographic".toList,
      content := "Educational breakdown: \"".toList ++ jsSubstring segment 0 50 ++ "...\"".toList,
      keywords := ["education".toList, "learning".toList, "knowledge".toList, "tutorial".toList],
      template := "vertical_list".toList,
      matched_keywords := none }
  else if style = "technical".toList then
    { itype := "diagram".toList,
      content := "Technical architecture: \"".toList ++ jsSubstring segment 0 50 ++ "...\"".toList,
      keywords := ["technical".toList, "system".toList, "process".toList, "architecture".toList],
      template := "process".toList,
      matched_keywords := none }
  else if style = "engaging".toList then
    { itype := "photo".toList,
      content := "Eye-catching visual: \"".toList ++ jsSubstring segment 0 50 ++ "...\"".toList,
      keywords := ["engaging".toList, "visual".toList, "attractive".toList, "impact".toList],
      template := "highlight".toList,
      matched_keywords := none }
  else if style = "professional".toList then
    { itype := "chart".toList,
      content := "Business insight chart: \"".toList ++ jsSubstring segment 0 50 ++ "...\"".toList,
      keywords := ["professional".toList, "business".toList, "data".toList, "insight".toList],
      template := "horizontal_list".toList,
      matched_keywords := none }
  else if style = "concise".toList then
    { itype := "infographic".toList,
      content := "Key points summary: \"".toList ++ jsSubstring segment 0 50 ++ "...\"".toList,
      keywords := ["summary".toList, "key points".toList, "overview".toList, "concise".toList],
      template := "vertical_list".toList,
      matched_keywords := none }
  else
    { itype := "infographic".toList,
      content := "Content visualization: \"".toList ++ jsSubstring segment 0 50 ++ "...\"".toList,
      keywords := ["content".toList, "visual".toList, "information".toList, "summary".toList],
      template := "vertical_list".toList,
      matched_keywords := none }

/-- Greatest index of a newline inside a string, if any. -/
def lastNLIdx (l : JStr) : Option Nat :=
  match l.reverse.findIdx? (fun c => c = NL) with
  | some j => some (l.length - 1 - j)
  | none => none

/-- Length of a match of the paragraph separator regex `/\n\s*\n/` at the
start of `l`, if any (greedy whitespace with backtracking to the last
newline of the run, as the JS regex engine does). -/
def paraMatchLen (l : JStr) : Option Nat :=
  match l with
  | c :: rest =>
    if c = NL then
      match lastNLIdx (rest.takeWhile isWs) with
      | some j => some (j + 2)
      | none => none
    else none
  | [] => none

/-- Fuel-driven core of the paragraph splitter. -/
def splitParasGo : Nat → JStr → JStr → List JStr
  | 0, acc, _ => [acc.reverse]
  | _ + 1, acc, [] => [acc.reverse]
  | fuel + 1, acc, c :: cs =>
    match paraMatchLen (c :: cs) with
    | some m => acc.reverse :: splitParasGo fuel [] (cs.drop (m - 1))
    | none => splitParasGo fuel (c :: acc) cs

/-- Model of JS `text.split(/\n\s*\n/)`. -/
def splitParas (l : JStr) : List JStr := splitParasGo (l.length + 1) [] l

/-- The merge loop of `combineSmallSegments` (`src/services/localTemplates.js`):
accumulate adjacent segments while the combined length stays below 1.5 times
the mean target length (`2*t*(c+s+1) < 3*sum` models
`c + s + 1 < (sum/t) * 1.5` exactly); once `targetCount - 1` chunks are
flushed, absorb all remaining segments into the current chunk and stop.
Returns the flushed chunks and the pending current chunk. -/
def combineGo (all : List JStr) (sum2 t : Nat) : List JStr → JStr → List JStr → List JStr × JStr
  | [], cur, comb => (comb, cur)
  | seg :: rest, cur, comb =>
    if cur = [] then combineGo all sum2 t rest seg comb
    else if 2 * t * (utf16Len cur + utf16Len seg + 1) < 3 * sum2 then
      combineGo all sum2 t rest (cur ++ SP :: seg) comb
    else
      let comb' := comb ++ [cur]
      if comb'.length ≥ t - 1 then
        let idx := all.findIdx (fun s => s = seg)
        let remaining := all.drop (idx + 1)
        let cur' := if remaining ≠ [] then seg ++ SP :: joinSp remaining else seg
        (comb', cur')
      else combineGo all sum2 t rest seg comb'

/-- Embedding of `combineSmallSegments(segments, targetCount)` from
`src/services/localTemplates.js`. -/
def combineSmallSegments (segments : List JStr) (targetCount : Nat) : List JStr :=
  if segments.length ≤ targetCount then segments
  else
    let sum2 := segments.foldl (fun a s => a + utf16Len s) 0
    let r := combineGo segments sum2 targetCount segments [] []
    if r.2 ≠ [] then r.1 ++ [r.2] else r.1

/-- Fuel-driven core of the sentence grouping of `segmentText`. -/
def sentGroupsGo (spt : Nat) : Nat → List JStr → List JStr
  | 0, _ => []
  | _ + 1, [] => []
  | fuel + 1, x :: xs =>
    let seg := jsTrim (List.intercalate ('.' :: SP :: []) ((x :: xs).take spt))
    (if seg ≠ [] then [seg] else []) ++ sentGroupsGo spt fuel ((x :: xs).drop spt)

/-- Sentence grouping of the sentence-based branch of `segmentText`: take
`spt` consecutive sentences, join with a period and space, trim, keep if
nonempty (returns [] for a zero group size, unreachable from the caller). -/
def sentGroups (l : List JStr) (spt : Nat) : List JStr :=
  if spt = 0 then [] else sentGroupsGo spt (l.length + 1) l

/-- The fixed-width splitting loop of `segmentText` (last-resort branch):
cut `avg` UTF-16 units at a time, moving a cut back to the last space of the
window when that space lies past half the window. -/
def lengthSegGo (text : JStr) (len avg : Nat) : Nat → Nat → List JStr
  | _, 0 => []
  | i, fuel + 1 =>
    if i < len then
      let seg := jsSubstring text i (i + avg)
      let seg2 :=
        if i + avg < len then
          let ls := jsLastIndexOfCh seg SP
          if 2 * ls > (utf16Len seg : Int) then jsSubstring seg 0 ls.toNat else seg
        else seg
      jsTrim seg2 :: lengthSegGo text len avg (i + avg) fuel
    else []

/-- Embedding of `segmentText(text, targetCount)` from
`src/services/localTemplates.js`: paragraph split, else sentence split,
else fixed-width split. -/
def segmentText (text : JStr) (targetCount : Nat) : List JStr :=
  if text = [] ∨ targetCount < 1 then []
  else
    let paragraphs := (splitParas text).filter (fun p => jsTrim p ≠ [])
    if paragraphs.length ≥ targetCount then
      combineSmallSegments (paragraphs.take (targetCount * 2)) targetCount
    else
      let sentences := (splitSentences text).filter (fun s => jsTrim s ≠ [])
      if sentences.length ≥ targetCount then
        (sentGroups sentences (ceilDiv sentences.length targetCount)).take targetCount
      else
        let len := utf16Len text
        let avg := ceilDiv len targetCount
        (lengthSegGo text len avg 0 (len + 1)).filter (fun s => s ≠ [])

/-- Embedding of `getStylePrefixes(style, language)` from
`src/services/localTemplates.js`. -/
def getStylePrefixes (style language : JStr) : List JStr :=
  stylePrefixes style (language = "arabic".toList)

/-- Embedding of `generateTweetText(segment, style, index, total, langAnalysis)`
from `src/services/localTemplates.js`; the `Math.random()` prefix choice is
the seed `rngP` taken modulo the pool size. -/
def generateTweetText (segment style : JStr) (index total : Nat)
    (la : LangAnalysis) (rngP : Nat) : JStr :=
  let t0 := jsTrim segment
  let t1 :=
    if total > 1 then
      t0 ++ SP :: ('(' :: (natDec (index + 1) ++ '/' :: natDec total ++ [')']))
    else t0
  if index = 0 then
    let ps := getStylePrefixes style la.dominant_language
    if ps ≠ [] then ps.getD (rngP % ps.length) [] ++ SP :: t1 else t1
  else t1

/-- Embedding of `generateEmojis(segment, style, index)` from
`src/services/localTemplates.js`. -/
def generateEmojis (segment style : JStr) (index : Nat) : List JStr :=
  let lower := jsLower segment
  let content :=
    (if trigKwImportant.any (fun k => containsSub lower k) then trigEmImportant else []) ++
    (if trigKwSuccess.any (fun k => containsSub lower k) then trigEmSuccess else []) ++
    (if trigKwMoney.any (fun k => containsSub lower k) then trigEmMoney else []) ++
    (if trigKwTime.any (fun k => containsSub lower k) then trigEmTime else [])
  let content2 := if index = 0 then threadStartEmojis ++ content else content
  (setDedup (styleEmojis style ++ content2)).take 3

/-- Embedding of `generateCTA(style, langAnalysis)` from
`src/services/localTemplates.js`; the random choice is the seed `rngC`
modulo the pool size. -/
def generateCTA (style : JStr) (la : LangAnalysis) (rngC : Nat) : JStr :=
  let isAr := la.dominant_language = "arabic".toList
  let pool0 := ctaPools style isAr
  let pool := if pool0 = [] then ctaPools "educational".toList isAr else pool0
  pool.getD (rngC % pool.length) []

/-- Embedding of `generateImageSuggestion(segment, style)` from
`src/services/localTemplates.js`: score every pattern by the sum of
`priority + keyword.length` over matched keywords, keep the strictly best,
and fall back to the style suggestion when the best score is below 5. -/
def generateImageSuggestion (segment style : JStr) : ImageSug :=
  let lower := jsLower segment
  let best := imagePatterns.foldl
    (fun (acc : Option ImageSug × Nat) po =>
      let matched := po.trigKeywords.filter (fun kw => containsSub lower kw)
      let score := matched.foldl (fun s kw => s + po.priority + utf16Len kw) 0
      if score > acc.2 then
        (some { itype := po.ptype,
                content := po.pcontent ++ " for: \"".toList ++
                  jsSubstring segment 0 60 ++ "...\"".toList,
                keywords := po.pkeywords,
                template := po.ptemplate,
                matched_keywords := some matched }, score)
      else acc)
    (none, 0)
  match best with
  | (some bm, score) => if score ≥ 5 then bm else styleImageFallback segment style
  | (none, _) => styleImageFallback segment style

/-- The index-tracking fold of the `reduce` finding the longest tweet in
`ensureExactTweetCount`. -/
def findLongestGo : List Tweet → Nat → Nat → Nat → Nat
  | [], _, best, _ => best
  | t :: ts, i, best, bestLen =>
    if utf16Len t.text > bestLen then findLongestGo ts (i + 1) i (utf16Len t.text)
    else findLongestGo ts (i + 1) best bestLen

/-- Index of the (first) longest tweet, 0 on an empty list (as the JS
`reduce` with initial value 0). -/
def findLongestIdx : List Tweet → Nat
  | [] => 0
  | t :: ts => findLongestGo ts 1 0 (utf16Len t.text)

/-- Placeholder used only as the (unreachable) default of list indexing. -/
def dummyTweet : Tweet :=
  { index := 0, text := [], char_count := 0, warnings := [], hashtags := []
    emoji_suggestions := [], cta := none, image_suggestion := none }

/-- Reindexing map (`{ ...tweet, index: index + 1 }`). -/
def reindexGo : Nat → List Tweet → List Tweet
  | _, [] => []
  | i, t :: ts => { t with index := i + 1 } :: reindexGo (i + 1) ts

/-- Reindex a thread 1..N. -/
def reindex (l : List Tweet) : List Tweet := reindexGo 0 l

/-- The split-the-longest loop of `ensureExactTweetCount`.  On an empty list
the JS source dereferences `result[0].text` and throws; this is the `.error`
case.  The fuel is the number of missing tweets; each iteration adds one
tweet, so the loop ends exactly when the count reaches the target or a break
fires (longest under 100 units, or no usable split point). -/
def ensureLoop (target : Nat) : Nat → List Tweet → Except Unit (List Tweet)
  | 0, result => .ok result
  | fuel + 1, result =>
    if result.length < target then
      match result with
      | [] => .error ()
      | _ :: _ =>
        let li := findLongestIdx result
        let longest := result.getD li dummyTweet
        if utf16Len longest.text < 100 then .ok result
        else
          let len := utf16Len longest.text
          let sp := jsLastIndexOfFrom longest.text SP (len / 2)
          if sp > 0 then
            let firstPart := jsTrim (jsSubstring longest.text 0 sp.toNat)
            let secondPart := jsTrim (jsSubstring longest.text sp.toNat len)
            let r1 := result.set li { longest with text := firstPart }
            let r2 := listInsertAt (li + 1)
              { longest with text := secondPart, hashtags := [], emoji_suggestions := [] } r1
            ensureLoop target fuel r2
          else .ok result
    else .ok result

/-- Embedding of `ensureExactTweetCount(tweets, targetCount)` from
`src/services/localTemplates.js`. -/
def ensureExactTweetCount (tweets : List Tweet) (target : Nat) : Except Unit (List Tweet) :=
  if tweets.length = target then .ok tweets
  else if tweets.length > target then
    let toRemove := tweets.length - target
    let startRemove := (tweets.length - toRemove) / 2
    .ok (reindex (tweets.take startRemove ++ tweets.drop (startRemove + toRemove)))
  else do
    let r ← ensureLoop target (target - tweets.length) tweets
    .ok (reindex (r.take target))

/-- Embedding of `detectTone(text, style)` from
`src/services/localTemplates.js`. -/
def detectTone (text style : JStr) : JStr :=
  let lower := jsLower text
  if toneWarningKws.any (fun k => containsSub lower k) then style ++ toneSuffixWarning
  else if toneExcitingKws.any (fun k => containsSub lower k) then style ++ toneSuffixExcitement
  else if toneImportantKws.any (fun k => containsSub lower k) then style ++ toneSuffixUrgent
  else style

/-- The string value of a possibly-null CTA (JS `null` is falsy like `''`). -/
def ctaStr : Option JStr → JStr
  | none => []
  | some c => c

/-- Embedding of `calculateEngagementScore(tweets, langAnalysis, style)`
from `src/services/localTemplates.js`.  All summands are multiples of 0.1,
so the score is carried exactly in tenths (the `langAnalysis` argument is
unused in the source body). -/
def calculateEngagementScore (tweets : List Tweet) (style : JStr) : Int :=
  let s0 : Int := 50
  let s1 := if 3 ≤ tweets.length ∧ tweets.length ≤ 7 then s0 + 10
            else if tweets.length > 10 then s0 - 15 else s0
  let s2 := if tweets.any (fun t => ctaStr t.cta ≠ []) then s1 + 5 else s1
  let emojiCount := tweets.foldl (fun a t => a + t.emoji_suggestions.length) 0
  let s3 := if 0 < emojiCount ∧ emojiCount ≤ tweets.length * 2 then s2 + 5 else s2
  let hashtagCount := tweets.foldl (fun a t => a + t.hashtags.length) 0
  let s4 := if 0 < hashtagCount ∧ hashtagCount ≤ tweets.length * 3 then s3 + 5 else s3
  let bonus : Int :=
    if style = "engaging".toList then 5
    else if style = "educational".toList then 3
    else if style = "professional".toList then 2
    else if style = "technical".toList then 1
    else if style = "concise".toList then 2
    else 0
  min (max (s4 + bonus) 0) 100

/-- Publishing recommendations object. -/
structure PubRecs where
  best_time : JStr
  thread_timing : JStr
  engagement_tips : List JStr
deriving DecidableEq, Repr

/-- Embedding of `generatePublishingRecommendations(langAnalysis, style)`
from `src/services/localTemplates.js`. -/
def generatePublishingRecommendations (la : LangAnalysis) (style : JStr) : PubRecs :=
  let isAr := la.dominant_language = "arabic".toList
  let tips1 :=
    if isAr then
      ["Post during evening hours (8-10 PM) for better Arabic audience engagement".toList,
       "Use RTL formatting for optimal display".toList]
    else
      ["Post during business hours or early evening for English audience".toList,
       "Consider time zones of your target audience".toList]
  let tips2 :=
    if style = "educational".toList then
      tips1 ++ ["Pin the thread for reference".toList,
                "Encourage saves and bookmarks".toList]
    else tips1
  { best_time := if isAr then "21:00 GMT+3".toList else "09:00 GMT-5".toList
    thread_timing := "2 minutes".toList
    engagement_tips := tips2 }

/-- Generation parameters of `generateFallbackThread` with the source
defaults (`language: 'auto'`, `style: 'professional'`, `maxTweets: 5`,
`includeHashtags: true`, `includeImages: false`). -/
structure Params where
  language : JStr
  style : JStr
  maxTweets : Nat
  includeHashtags : Bool
  includeImages : Bool
deriving DecidableEq, Repr

/-- The default parameters (`CONSTANTS` defaults of `src/config/constants`). -/
def defaultParams : Params :=
  { language := "auto".toList, style := "professional".toList, maxTweets := 5
    includeHashtags := true, includeImages := false }

/-- Seeds for the two `Math.random()` draws of the local pipeline (style
prefix choice and CTA choice), modelling the spec's injectable random
source. -/
structure Rng where
  prefixChoice : Nat
  ctaChoice : Nat
deriving DecidableEq, Repr

/-- The thread metadata object of a successful generation. -/
structure Metadata where
  language : JStr
  style_requested : JStr
  tone_detected : JStr
  max_tweets_requested : Nat
  tweets_generated : Nat
  direction : JStr
deriving DecidableEq, Repr

/-- The success payload of `generateFallbackThread`.  The engagement score
is held in exact tenths (a JS float in the source). -/
structure ThreadResult where
  metadata : Metadata
  thread : List Tweet
  thread_summary : JStr
  estimated_engagement_score : Int
  publishing_recommendations : PubRecs
deriving DecidableEq, Repr

/-- The structured failure value of `generateFallbackThread`
(`ERROR_CODES.INTERNAL_ERROR = 500`). -/
structure ErrObj where
  error : JStr
  code : Nat
deriving DecidableEq, Repr

/-- Result of `generateFallbackThread`: a success object or an error
object, discriminated as in the source. -/
inductive GenResult where
  | success (r : ThreadResult)
  | failure (e : ErrObj)
deriving DecidableEq, Repr

/-- The thread of a result ([] on failure). -/
def GenResult.getThread : GenResult → List Tweet
  | .success r => r.thread
  | .failure _ => []

/-- The per-segment tweet construction map of `generateFallbackThread`
(lines 37-50 of `src/services/localTemplates.js`). -/
def mkTweetsGo (n : Nat) (params : Params) (rng : Rng) (la : LangAnalysis) :
    Nat → List JStr → List Tweet
  | _, [] => []
  | i, s :: ss =>
    let tt := generateTweetText s params.style i n la rng.prefixChoice
    { index := i + 1
      text := tt
      char_count := getCharCount tt [] []
      warnings := []
      hashtags := []
      emoji_suggestions := generateEmojis s params.style i
      cta := if i = n - 1 then some (generateCTA params.style la rng.ctaChoice) else none
      image_suggestion :=
        if params.includeImages then some (generateImageSuggestion s params.style) else none
    } :: mkTweetsGo n params rng la (i + 1) ss

/-- The initial tweets built from the segments. -/
def mkInitialTweets (segments : List JStr) (params : Params) (rng : Rng)
    (la : LangAnalysis) : List Tweet :=
  mkTweetsGo segments.length params rng la 0 segments

/-- The final length-validation map of `generateFallbackThread` (lines 67-77
of `src/services/localTemplates.js`): when a tweet fails validation its text
is truncated to fit 280 with its hashtags and CTA, its `char_count` is
recomputed, and a warning is appended; a valid tweet is left unchanged. -/
def fixTweetLength (t : Tweet) : Tweet :=
  let v := validateTweetLength t.text t.hashtags (ctaStr t.cta)
  if v.isValid then t
  else
    let nt := truncateSmart t.text 280 t.hashtags (ctaStr t.cta)
    { t with
      text := nt
      char_count := getCharCount nt t.hashtags (ctaStr t.cta)
      warnings := t.warnings ++ ["Tweet truncated to fit character limit".toList] }

/-- Stage view: the segments computed by `generateFallbackThread`. -/
def gftSegments (text : JStr) (params : Params) : List JStr :=
  segmentText text params.maxTweets

/-- Stage view: the initial tweets of `generateFallbackThread`. -/
def gftInitial (text : JStr) (params : Params) (rng : Rng) : List Tweet :=
  mkInitialTweets (gftSegments text params) params rng (detectLanguagePercentages text)

/-- Stage view: the tweets after `ensureExactTweetCount`. -/
def gftEnsured (text : JStr) (params : Params) (rng : Rng) : Except Unit (List Tweet) :=
  ensureExactTweetCount (gftInitial text params rng) params.maxTweets

/-- The options record `{ maxHashtags: 4, englishRatio: 0.7 }` passed by
`generateFallbackThread` to `generateThreadHashtags` (the two flags default
to `false` when absent, as in the source destructuring). -/
def gftHtOptions : HtOptions :=
  { maxHashtags := 4, englishShare10 := 7, includeThreadHashtag := false, forceArabic := false }

/-- The `try` body of `generateFallbackThread`. -/
def gftCore (text : JStr) (params : Params) (rng : Rng) : Except Unit ThreadResult := do
  let langAnalysis := detectLanguagePercentages text
  let detectedLanguage := getLanguageCode text
  let direction := detectTextDirection text
  let tweets1 ← gftEnsured text params rng
  let tweets2 := if params.includeHashtags then generateThreadHashtags tweets1 gftHtOptions
                 else tweets1
  let tweets3 := dedupeHashtagsAndEmojis tweets2
  let tweets4 := tweets3.map fixTweetLength
  .ok
    { metadata :=
        { language := if params.language = "auto".toList then detectedLanguage
                      else params.language
          style_requested := params.style
          tone_detected := detectTone text params.style
          max_tweets_requested := params.maxTweets
          tweets_generated := tweets4.length
          direction := direction }
      thread := tweets4
      thread_summary := threadSummaryOf params.style
      estimated_engagement_score := calculateEngagementScore tweets4 params.style
      publishing_recommendations := generatePublishingRecommendations langAnalysis params.style }

/-- Embedding of `generateFallbackThread(text, params)` from
`src/services/localTemplates.js`: the whole body runs under a `try`; any
thrown exception is caught and converted to the structured error object. -/
def generateFallbackThread (text : JStr) (params : Params) (rng : Rng) : GenResult :=
  match gftCore text params rng with
  | .ok r => .success r
  | .error _ =>
    .failure { error := "Failed to generate thread using local fallback".toList, code := 500 }

theorem list_set_self {α : Type} : ∀ (l : List α) (n : Nat) (h : n < l.length),
    l.set n (l.get ⟨n, h⟩) = l
  | _ :: _, 0, _ => rfl
  | x :: xs, n + 1, h => by
    simp only [List.set_cons_succ, List.get_cons_succ]
    exact congrArg (x :: ·) (list_set_self xs n (by simpa using h))

theorem mem_listInsertAt {α : Type} (x a : α) :
    ∀ (n : Nat) (l : List α), x ∈ listInsertAt n a l → x = a ∨ x ∈ l := by
  intro n l
  induction l generalizing n with
  | nil => cases n <;> simp [listInsertAt]
  | cons y ys ih =>
    cases n with
    | zero => simp [listInsertAt]
    | succ m =>
      simp only [listInsertAt, List.mem_cons]
      rintro (h | h)
      · simp [h]
      · rcases ih m h with h' | h' <;> simp [h']

theorem map_listInsertAt {α β : Type} (f : α → β) (a : α) :
    ∀ (n : Nat) (l : List α),
      (listInsertAt n a l).map f = listInsertAt n (f a) (l.map f) := by
  intro n l
  induction l generalizing n with
  | nil => cases n <;> simp [listInsertAt]
  | cons y ys ih =>
    cases n with
    | zero => simp [listInsertAt]
    | succ m => simp [listInsertAt, ih]

theorem length_listInsertAt {α : Type} (a : α) :
    ∀ (n : Nat) (l : List α), (listInsertAt n a l).length = l.length + 1 := by
  intro n l
  induction l generalizing n with
  | nil => cases n <;> simp [listInsertAt]
  | cons y ys ih =>
    cases n with
    | zero => simp [listInsertAt]
    | succ m => simp [listInsertAt, ih]

theorem getLast?_listInsertAt {α : Type} (a : α) :
    ∀ (n : Nat) (l : List α), n ≤ l.length →
      (listInsertAt n a l).getLast? = if n = l.length then some a else l.getLast? := by
  intro n l
  induction l generalizing n with
  | nil =>
    intro h
    have h0 : n = 0 := by simpa using h
    subst h0
    simp [listInsertAt]
  | cons y ys ih =>
    intro h
    cases n with
    | zero =>
      simp only [listInsertAt, List.length_cons]
      rw [if_neg (by omega)]
      rcases ys with _ | _ <;> simp
    | succ m =>
      simp only [listInsertAt, List.length_cons] at h ⊢
      have hm : m ≤ ys.length := by omega
      have := ih m hm
      rcases hy : listInsertAt m a ys with _ | ⟨z, zs⟩
      · exact absurd (congrArg List.length hy) (by simp [length_listInsertAt])
      · rw [List.getLast?_cons_cons]
        rw [hy] at this
        rw [this]
        by_cases hme : m = ys.length
        · rw [if_pos hme, if_pos (by omega)]
        · rw [if_neg hme, if_neg (by omega)]
          cases ys with
          | nil => simp only [List.length_nil] at hm hme; omega
          | cons w ws => simp

theorem dropWhile_forall_iff (p : Char → Bool) (l : JStr) :
    (∀ x ∈ l.dropWhile p, p x) ↔ (∀ x ∈ l, p x) := by
  induction l with
  | nil => simp
  | cons c cs ih =>
    by_cases hc : p c
    · simp only [List.dropWhile_cons, hc, if_true, ih, List.mem_cons]
      constructor
      · rintro h x (rfl | hx)
        · exact hc
        · exact h x hx
      · intro h x hx
        exact h x (Or.inr hx)
    · simp only [List.dropWhile_cons, hc]
      simp

theorem jsTrim_eq_nil_iff (l : JStr) : jsTrim l = [] ↔ ∀ x ∈ l, isWs x := by
  unfold jsTrim
  rw [List.reverse_eq_nil_iff, List.dropWhile_eq_nil_iff]
  simp only [List.mem_reverse]
  exact dropWhile_forall_iff isWs l

theorem jsTrim_prefix_dropWhile (l : JStr) : (jsTrim l).IsPrefix (l.dropWhile isWs) := by
  unfold jsTrim
  rw [← List.reverse_suffix]
  simpa using List.dropWhile_suffix isWs

theorem jsTrim_head_not_ws (l : JStr) (c : Char) (h : (jsTrim l).head? = some c) :
    isWs c = false := by
  obtain ⟨t, ht⟩ := jsTrim_prefix_dropWhile l
  cases hJ : jsTrim l with
  | nil => rw [hJ] at h; simp at h
  | cons d ds =>
    rw [hJ] at h ht
    simp only [List.head?_cons, Option.some_inj] at h
    have hhd : (l.dropWhile isWs).head? = some c := by rw [← ht]; simp [h]
    have h2 := List.head?_dropWhile_not isWs l
    rw [hhd] at h2
    simpa using h2

theorem jsTrim_getLast_not_ws (l : JStr) (c : Char) (h : (jsTrim l).getLast? = some c) :
    isWs c = false := by
  unfold jsTrim at h
  rw [List.getLast?_reverse] at h
  have h2 := List.head?_dropWhile_not isWs (l.dropWhile isWs).reverse
  rw [h] at h2
  simpa using h2

theorem dropWhile_eq_self_of_head (p : Char → Bool) (l : JStr) (c : Char)
    (hh : l.head? = some c) (hc : p c = false) : l.dropWhile p = l := by
  cases l with
  | nil => rfl
  | cons d ds =>
    simp only [List.head?_cons, Option.some_inj] at hh
    subst hh
    simp [List.dropWhile_cons, hc]

theorem jsTrim_eq_self (T : JStr)
    (hh : ∀ c, T.head? = some c → isWs c = false)
    (hl : ∀ c, T.getLast? = some c → isWs c = false) : jsTrim T = T := by
  cases hT : T with
  | nil => rfl
  | cons c cs =>
    have hc := hh c (by rw [hT]; rfl)
    have hlast : T.getLast? = some ((c :: cs).getLast (by simp)) := by
      rw [hT]; exact List.getLast?_eq_getLast _ _
    have hce := hl _ hlast
    unfold jsTrim
    rw [← hT]
    rw [dropWhile_eq_self_of_head isWs T c (by rw [hT]; rfl) hc]
    rw [dropWhile_eq_self_of_head isWs T.reverse _ (by rw [List.head?_reverse]; exact hlast) hce]
    simp

theorem jsTrim_idem (l : JStr) : jsTrim (jsTrim l) = jsTrim l :=
  jsTrim_eq_self (jsTrim l) (jsTrim_head_not_ws l) (jsTrim_getLast_not_ws l)

theorem jsTrim_ne_nil_iff (l : JStr) : jsTrim l ≠ [] ↔ l.any (fun c => !isWs c) := by
  rw [Ne, jsTrim_eq_nil_iff, List.any_eq_true]
  constructor
  · intro h
    push_neg at h
    obtain ⟨x, hx, hpx⟩ := h
    exact ⟨x, hx, by simpa using hpx⟩
  · rintro ⟨x, hx, hpx⟩ hall
    have := hall x hx
    simp [this] at hpx

theorem setDedupGo_fuel : ∀ (f1 f2 : Nat) (l : List JStr),
    l.length ≤ f1 → l.length ≤ f2 → setDedupGo f1 l = setDedupGo f2 l := by
  intro f1
  induction f1 with
  | zero =>
    intro f2 l h1 h2
    have : l = [] := List.eq_nil_of_length_eq_zero (Nat.le_zero.mp h1)
    subst this
    cases f2 <;> rfl
  | succ f ih =>
    intro f2 l h1 h2
    cases l with
    | nil => cases f2 <;> rfl
    | cons x xs =>
      cases f2 with
      | zero => simp at h2
      | succ f2' =>
        simp only [setDedupGo]
        have hle := List.length_filter_le (fun y => decide (y ≠ x)) xs
        simp only [List.length_cons] at h1 h2
        exact congrArg (x :: ·) (ih f2' _ (by omega) (by omega))

theorem setDedup_cons (x : JStr) (xs : List JStr) :
    setDedup (x :: xs) = x :: setDedup (xs.filter (fun y => y ≠ x)) := by
  unfold setDedup
  simp only [List.length_cons, setDedupGo]
  have hle := List.length_filter_le (fun y => decide (y ≠ x)) xs
  exact congrArg (x :: ·) (setDedupGo_fuel _ _ _ (by omega) (by omega))

theorem mem_setDedup : ∀ (l : List JStr) (x : JStr), x ∈ setDedup l ↔ x ∈ l := by
  have key : ∀ (n : Nat) (l : List JStr), l.length ≤ n →
      ∀ x, x ∈ setDedup l ↔ x ∈ l := by
    intro n
    induction n with
    | zero =>
      intro l h x
      have : l = [] := List.eq_nil_of_length_eq_zero (Nat.le_zero.mp h)
      subst this
      simp [setDedup, setDedupGo]
    | succ n ih =>
      intro l h x
      cases l with
      | nil => simp [setDedup, setDedupGo]
      | cons y ys =>
        rw [setDedup_cons]
        simp only [List.length_cons] at h
        have hle := List.length_filter_le (fun z => decide (z ≠ y)) ys
        rw [List.mem_cons, List.mem_cons, ih _ (by omega) x, List.mem_filter]
        by_cases hxy : x = y
        · simp [hxy]
        · simp [hxy]
  exact fun l x => key l.length l (le_refl _) x

theorem setDedup_nodup : ∀ (l : List JStr), (setDedup l).Nodup := by
  have key : ∀ (n : Nat) (l : List JStr), l.length ≤ n → (setDedup l).Nodup := by
    intro n
    induction n with
    | zero =>
      intro l h
      have : l = [] := List.eq_nil_of_length_eq_zero (Nat.le_zero.mp h)
      subst this
      simp [setDedup, setDedupGo]
    | succ n ih =>
      intro l h
      cases l with
      | nil => simp [setDedup, setDedupGo]
      | cons y ys =>
        rw [setDedup_cons]
        simp only [List.length_cons] at h
        have hle := List.length_filter_le (fun z => decide (z ≠ y)) ys
        refine List.nodup_cons.mpr ⟨?_, ih _ (by omega)⟩
        intro hmem
        have := (mem_setDedup _ _).mp hmem
        simp [List.mem_filter] at this
  exact fun l => key l.length l (le_refl _)

theorem setDedup_eq_self_of_nodup : ∀ (l : List JStr), l.Nodup → setDedup l = l := by
  have key : ∀ (n : Nat) (l : List JStr), l.length ≤ n → l.Nodup → setDedup l = l := by
    intro n
    induction n with
    | zero =>
      intro l h _
      have : l = [] := List.eq_nil_of_length_eq_zero (Nat.le_zero.mp h)
      subst this
      simp [setDedup, setDedupGo]
    | succ n ih =>
      intro l h hnd
      cases l with
      | nil => simp [setDedup, setDedupGo]
      | cons y ys =>
        rw [setDedup_cons]
        simp only [List.length_cons] at h
        have hy : y ∉ ys := (List.nodup_cons.mp hnd).1
        have hfe : ys.filter (fun z => z ≠ y) = ys := by
          apply List.filter_eq_self.mpr
          intro a ha
          simp only [ne_eq, decide_eq_true_eq]
          intro hcontra
          exact hy (hcontra ▸ ha)
        rw [hfe, ih ys (by omega) (List.nodup_cons.mp hnd).2]
  exact fun l hnd => key l.length l (le_refl _) hnd

theorem getCharCount_self (text : JStr) : getCharCount text [] [] = gcount text := by
  unfold getCharCount
  by_cases h : text = []
  · subst h; simp [gcount, gsplit]
  · simp [h]

theorem gcount_append_sp_le (a b : JStr) :
    gcount (a ++ SP :: b) ≤ gcount a + (utf16Len b + 1) := by
  have h1 := gcount_append_le a (SP :: b)
  have h2 := gcount_cons_le SP b
  have h3 := gcount_le_utf16Len b
  omega

theorem getCharCount_le (text : JStr) (hashtags : List JStr) (cta : JStr) :
    getCharCount text hashtags cta ≤ gcount text + hashtagSpace hashtags + ctaSpace cta := by
  unfold getCharCount
  by_cases htext : text = []
  · simp [htext]
  · simp only [htext, if_neg, if_false]
    have hhs : ∀ u : JStr,
        gcount u ≤ gcount text + hashtagSpace hashtags →
        gcount (if cta ≠ [] && !containsSub u cta then u ++ SP :: cta else u) ≤
          gcount text + hashtagSpace hashtags + ctaSpace cta := by
      intro u hu
      by_cases hc : (cta ≠ [] && !containsSub u cta) = true
      · rw [if_pos hc]
        have hcta : cta ≠ [] := by
          intro hc0
          rw [hc0] at hc
          simp at hc
        have := gcount_append_sp_le u cta
        unfold ctaSpace
        rw [if_neg hcta]
        omega
      · rw [if_neg hc]
        have : 0 ≤ ctaSpace cta := Nat.zero_le _
        omega
    by_cases hh : hashtags = []
    · subst hh
      apply hhs
      simp [hashtagSpace]
    · simp only [ne_eq, hh, not_false_eq_true, if_true, if_pos]
      by_cases hsub : containsSub text (joinSp hashtags) = true
      · simp only [hsub, if_true, if_pos]
        apply hhs
        have : 0 ≤ hashtagSpace hashtags := Nat.zero_le _
        omega
      · simp only [hsub, Bool.false_eq_true, if_false, if_neg]
        apply hhs
        have := gcount_append_sp_le text (joinSp hashtags)
        unfold hashtagSpace
        rw [if_neg hh]
        omega

theorem getCharCount_le_maxLength (r : JStr) (hashtags : List JStr) (cta : JStr)
    (maxLength : Int)
    (h : (gcount r : Int) ≤ availableSpace maxLength hashtags cta) :
    (getCharCount r hashtags cta : Int) ≤ maxLength := by
  have h1 := getCharCount_le r hashtags cta
  unfold availableSpace at h
  have h2 : (getCharCount r hashtags cta : Int) ≤
      (gcount r : Int) + (hashtagSpace hashtags : Int) + (ctaSpace cta : Int) := by
    exact_mod_cast h1
  omega

theorem wordLoop_le (avail : Int) (h0 : 0 ≤ avail) :
    ∀ (ws : List JStr) (acc : JStr), (gcount acc : Int) ≤ avail →
      (gcount (wordLoop avail ws acc) : Int) ≤ avail := by
  intro ws
  induction ws with
  | nil => intro acc h; simpa [wordLoop] using h
  | cons w ws' ih =>
    intro acc h
    unfold wordLoop
    by_cases hfit : (getCharCount (if acc = [] then w else acc ++ SP :: w) [] [] : Int) ≤ avail
    · rw [if_pos hfit]
      apply ih
      rw [getCharCount_self] at hfit
      exact hfit
    · rw [if_neg hfit]
      exact h

theorem sentLoop_le (avail : Int) (h0 : 0 ≤ avail) :
    ∀ (ss : List JStr) (acc : JStr), (gcount acc : Int) ≤ avail →
      (gcount (sentLoop avail ss acc) : Int) ≤ avail := by
  intro ss
  induction ss with
  | nil => intro acc h; simpa [sentLoop] using h
  | cons s ss' ih =>
    intro acc h
    unfold sentLoop
    by_cases hfit : (getCharCount (if acc = [] then s else acc ++ '.' :: SP :: s) [] [] : Int) ≤ avail
    · rw [if_pos hfit]
      apply ih
      rw [getCharCount_self] at hfit
      exact hfit
    · rw [if_neg hfit]
      exact h

theorem gcount_dots3 : gcount dots3 = 3 := by decide

theorem charBranch_le (text : JStr) (avail : Int) (h3 : 3 ≤ avail) :
    (gcount ((jsSliceEnd (gsplit text) (avail - 3)).flatten ++ dots3) : Int) ≤ avail := by
  have he : ¬ (avail - 3 < 0) := by omega
  unfold jsSliceEnd
  rw [if_neg he]
  set k := (avail - 3).toNat with hk
  have hgroups : ∀ g ∈ (gsplit text).take k,
      g ≠ [] ∧ g.Chain' (fun a b => gattach a b = true) := by
    intro g hg
    exact gsplit_groups text g (List.take_subset _ _ hg)
  have h1 := gcount_join_le _ hgroups
  have h2 : ((gsplit text).take k).length ≤ k := by
    simp [List.length_take]
  have h4 := gcount_append_le ((gsplit text).take k).flatten dots3
  have h5 : (k : Int) = avail - 3 := by omega
  have := gcount_dots3
  omega

/-- The claim of C4 as stated fails: at `truncateSmart("hello world", 2)`,
the character-level fallback slices with a negative bound, keeping almost
all of the text plus an ellipsis (13 grapheme clusters, far over the
limit 2). -/
theorem c4_counterexample :
    ¬ (getCharCount (truncateSmart ("hello world".toList) 2 [] []) [] [] ≤ 2) := by
  decide

/-- C4, amended: `truncateSmart(text, limit, hashtags, cta)` returns a
string with `getCharCount(result, hashtags, cta) ≤ limit` for every
nonnegative limit whose available text space (limit minus the reserved
hashtag/CTA space) is either nonpositive or at least 3; when the available
space is 1 or 2 the negative-slice fallback can exceed the limit. -/
theorem c4_amended (text : JStr) (hashtags : List JStr) (cta : JStr) (maxLength : Int)
    (h0 : 0 ≤ maxLength)
    (h : availableSpace maxLength hashtags cta ≤ 0 ∨
         3 ≤ availableSpace maxLength hashtags cta) :
    (getCharCount (truncateSmart text maxLength hashtags cta) hashtags cta : Int) ≤ maxLength := by
  unfold truncateSmart
  by_cases htext : text = []
  · rw [if_pos htext]
    have : getCharCount [] hashtags cta = 0 := by unfold getCharCount; simp
    rw [this]
    exact_mod_cast h0
  · rw [if_neg htext]
    obtain ⟨avail, ha⟩ : ∃ a, availableSpace maxLength hashtags cta = a := ⟨_, rfl⟩
    rw [ha] at h ⊢
    by_cases hav : avail ≤ 0
    · rw [if_pos hav]
      have : getCharCount [] hashtags cta = 0 := by unfold getCharCount; simp
      rw [this]
      exact_mod_cast h0
    · rw [if_neg hav]
      have h3 : 3 ≤ avail := by rcases h with h | h; omega; exact h
      by_cases hfits : (getCharCount text [] [] : Int) ≤ avail
      · rw [if_pos hfits]
        apply getCharCount_le_maxLength
        rw [getCharCount_self] at hfits
        rw [ha]
        exact hfits
      · rw [if_neg hfits]
        by_cases hw : (2 * (utf16Len (wordLoop avail (splitRuns isWs text) []) : Int)) > avail
        · rw [if_pos hw]
          apply getCharCount_le_maxLength
          rw [ha]
          exact wordLoop_le avail (by omega) _ [] (by simp [gcount, gsplit]; omega)
        · rw [if_neg hw]
          by_cases hs : (sentLoop avail (splitSentences text) [] = [] ||
              decide ((10 * (utf16Len (sentLoop avail (splitSentences text) []) : Int)) <
                3 * avail)) = true
          · rw [if_pos hs]
            apply getCharCount_le_maxLength
            rw [ha]
            exact charBranch_le text avail h3
          · rw [if_neg hs]
            apply getCharCount_le_maxLength
            rw [ha]
            exact sentLoop_le avail (by omega) _ [] (by simp [gcount, gsplit]; omega)

/-- Witness for C4 at a concrete input with ample available space. -/
theorem c4_witness :
    (getCharCount (truncateSmart ("hello world".toList) 280 [] []) [] [] : Int) ≤ 280 :=
  c4_amended ("hello world".toList) [] [] 280 (by decide) (by right; decide)

/-- C9: when the reserved hashtag/CTA space reaches the limit, the
available space is nonpositive and `truncateSmart` returns the empty
string, never a portion of the text. -/
theorem c9_reserved_space (text : JStr) (hashtags : List JStr) (cta : JStr)
    (maxLength : Int)
    (h : maxLength ≤ (hashtagSpace hashtags : Int) + (ctaSpace cta : Int)) :
    truncateSmart text maxLength hashtags cta = [] := by
  unfold truncateSmart
  by_cases htext : text = []
  · rw [if_pos htext]
  · rw [if_neg htext]
    have hav : availableSpace maxLength hashtags cta ≤ 0 := by
      unfold availableSpace
      omega
    rw [if_pos hav]

/-- Witness for C9: one hashtag of four reserved units against limit 3. -/
theorem c9_witness : truncateSmart ("hello".toList) 3 [("#aa".toList)] [] = [] :=
  c9_reserved_space ("hello".toList) [("#aa".toList)] [] 3 (by decide)

/-- Concrete input for the C6 counterexample: an English sentence carrying
four distinct emoji. -/
def c6Text : JStr := "Hello 😀 😁 😂 🤣 world".toList

/-- Parameters used by the concrete counterexample runs: one tweet,
no hashtag generation, no images. -/
def cexParams1 : Params :=
  { language := "auto".toList, style := "professional".toList, maxTweets := 1
    includeHashtags := false, includeImages := false }

/-- The zero random seeds. -/
def rng0 : Rng := { prefixChoice := 0, ctaChoice := 0 }

/-- The claim of C6 as stated fails: the final deduplication pass merges
the emoji extracted from the message text into `emoji_suggestions` without
re-capping, so this returned thread's only message carries 7 suggestions. -/
theorem c6_counterexample :
    ((generateFallbackThread c6Text cexParams1 rng0).getThread.map
      (fun t => decide (t.emoji_suggestions.length ≤ 3))).all (fun b => b) = false := by
  decide

/-- C6, amended: `generateEmojis` itself always returns at most 3 emoji
suggestions; the bound can be exceeded only by the later
`dedupeHashtagsAndEmojis` pass, which merges emoji found in the message
text without re-capping. -/
theorem c6_amended (segment style : JStr) (index : Nat) :
    (generateEmojis segment style index).length ≤ 3 := by
  unfold generateEmojis
  simp [List.length_take]

theorem char_toNat_ofNat (n : Nat) (h : n < 0xD800) : (Char.ofNat n).toNat = n := by
  have hv : n.isValidChar := Or.inl h
  simp only [Char.ofNat, hv, dif_pos, Char.toNat, Char.ofNatAux]
  rfl

theorem jsLowerChar_eq_self (d : Char)
    (h1 : ¬(65 ≤ d.toNat ∧ d.toNat ≤ 90))
    (h2 : ¬(192 ≤ d.toNat ∧ d.toNat ≤ 222 ∧ d.toNat ≠ 215))
    (h3 : d.toNat ≠ 0x178) (h4 : d.toNat ≠ 0x11E) (h5 : d.toNat ≠ 0x160)
    (h6 : d.toNat ≠ 0x152) (h7 : d.toNat ≠ 0x17D) : jsLowerChar d = d := by
  unfold jsLowerChar
  rw [if_neg (by simp only [Bool.and_eq_true, decide_eq_true_eq]; omega),
      if_neg (by
        simp only [Bool.and_eq_true, decide_eq_true_eq, ne_eq, decide_not,
          Bool.not_eq_eq_eq_not, Bool.not_true]
        rintro ⟨⟨ha, hb⟩, hd⟩
        exact h2 ⟨ha, hb, by simpa using hd⟩),
      if_neg (by simp only [beq_iff_eq]; exact h3),
      if_neg (by simp only [beq_iff_eq]; exact h4),
      if_neg (by simp only [beq_iff_eq]; exact h5),
      if_neg (by simp only [beq_iff_eq]; exact h6),
      if_neg (by simp only [beq_iff_eq]; exact h7)]

theorem jsLowerChar_of_upper (c : Char) (ha : 65 ≤ c.toNat) (hb : c.toNat ≤ 90) :
    jsLowerChar c = Char.ofNat (c.toNat + 32) := by
  unfold jsLowerChar
  rw [if_pos (by simp only [Bool.and_eq_true, decide_eq_true_eq]; exact ⟨ha, hb⟩)]

theorem jsLowerChar_of_latin (c : Char) (ha : 192 ≤ c.toNat) (hb : c.toNat ≤ 222)
    (hc : c.toNat ≠ 215) : jsLowerChar c = Char.ofNat (c.toNat + 32) := by
  unfold jsLowerChar
  rw [if_neg (by simp only [Bool.and_eq_true, decide_eq_true_eq]; omega),
      if_pos (by
        simp only [Bool.and_eq_true, decide_eq_true_eq, ne_eq, decide_not,
          Bool.not_eq_eq_eq_not, Bool.not_true]
        exact ⟨⟨ha, hb⟩, by simpa using hc⟩)]

theorem jsLowerChar_idem (c : Char) : jsLowerChar (jsLowerChar c) = jsLowerChar c := by
  by_cases h1 : 65 ≤ c.toNat ∧ c.toNat ≤ 90
  · rw [jsLowerChar_of_upper c h1.1 h1.2]
    have ht := char_toNat_ofNat (c.toNat + 32) (by omega)
    exact jsLowerChar_eq_self _ (by omega) (by omega) (by omega) (by omega)
      (by omega) (by omega) (by omega)
  · by_cases h2 : 192 ≤ c.toNat ∧ c.toNat ≤ 222 ∧ c.toNat ≠ 215
    · rw [jsLowerChar_of_latin c h2.1 h2.2.1 h2.2.2]
      have ht := char_toNat_ofNat (c.toNat + 32) (by omega)
      exact jsLowerChar_eq_self _ (by omega) (by omega) (by omega) (by omega)
        (by omega) (by omega) (by omega)
    · by_cases h3 : c.toNat = 0x178
      · have hc : c = Char.ofNat 0x178 := by rw [← h3, Char.ofNat_toNat]
        subst hc
        decide
      · by_cases h4 : c.toNat = 0x11E
        · have hc : c = Char.ofNat 0x11E := by rw [← h4, Char.ofNat_toNat]
          subst hc
          decide
        · by_cases h5 : c.toNat = 0x160
          · have hc : c = Char.ofNat 0x160 := by rw [← h5, Char.ofNat_toNat]
            subst hc
            decide
          · by_cases h6 : c.toNat = 0x152
            · have hc : c = Char.ofNat 0x152 := by rw [← h6, Char.ofNat_toNat]
              subst hc
              decide
            · by_cases h7 : c.toNat = 0x17D
              · have hc : c = Char.ofNat 0x17D := by rw [← h7, Char.ofNat_toNat]
                subst hc
                decide
              · have hfix := jsLowerChar_eq_self c h1 (by
                  intro ⟨a, b, d⟩; exact h2 ⟨a, b, d⟩) h3 h4 h5 h6 h7
                rw [hfix, hfix]

theorem jsLower_idem (l : JStr) : jsLower (jsLower l) = jsLower l := by
  unfold jsLower
  rw [List.map_map]
  exact List.map_congr_left (fun c _ => jsLowerChar_idem c)

theorem isWs_eq_false_of (d : Char)
    (h : (33 ≤ d.toNat ∧ d.toNat ≤ 159) ∨ (161 ≤ d.toNat ∧ d.toNat ≤ 0x167F)) :
    isWs d = false := by
  apply Bool.eq_false_iff.mpr
  intro htrue
  unfold isWs at htrue
  simp only [Bool.or_eq_true, Bool.and_eq_true, decide_eq_true_eq, beq_iff_eq] at htrue
  omega

theorem isWs_jsLowerChar (c : Char) : isWs (jsLowerChar c) = isWs c := by
  by_cases h1 : 65 ≤ c.toNat ∧ c.toNat ≤ 90
  · rw [jsLowerChar_of_upper c h1.1 h1.2]
    have ht := char_toNat_ofNat (c.toNat + 32) (by omega)
    rw [isWs_eq_false_of _ (by omega), isWs_eq_false_of c (by omega)]
  · by_cases h2 : 192 ≤ c.toNat ∧ c.toNat ≤ 222 ∧ c.toNat ≠ 215
    · rw [jsLowerChar_of_latin c h2.1 h2.2.1 h2.2.2]
      have ht := char_toNat_ofNat (c.toNat + 32) (by omega)
      rw [isWs_eq_false_of _ (by omega), isWs_eq_false_of c (by omega)]
    · by_cases h3 : c.toNat = 0x178
      · have hc : c = Char.ofNat 0x178 := by rw [← h3, Char.ofNat_toNat]
        subst hc; decide
      · by_cases h4 : c.toNat = 0x11E
        · have hc : c = Char.ofNat 0x11E := by rw [← h4, Char.ofNat_toNat]
          subst hc; decide
        · by_cases h5 : c.toNat = 0x160
          · have hc : c = Char.ofNat 0x160 := by rw [← h5, Char.ofNat_toNat]
            subst hc; decide
          · by_cases h6 : c.toNat = 0x152
            · have hc : c = Char.ofNat 0x152 := by rw [← h6, Char.ofNat_toNat]
              subst hc; decide
            · by_cases h7 : c.toNat = 0x17D
              · have hc : c = Char.ofNat 0x17D := by rw [← h7, Char.ofNat_toNat]
                subst hc; decide
              · rw [jsLowerChar_eq_self c h1
                  (by intro ⟨a, b, d⟩; exact h2 ⟨a, b, d⟩) h3 h4 h5 h6 h7]

theorem filterMap_eq_self {α : Type} (f : α → Option α) :
    ∀ (l : List α), (∀ x ∈ l, f x = some x) → l.filterMap f = l := by
  intro l
  induction l with
  | nil => intro _; rfl
  | cons x xs ih =>
    intro h
    rw [List.filterMap_cons, h x (List.mem_cons_self _ _),
      ih (fun y hy => h y (List.mem_cons_of_mem _ hy))]

theorem cleanTag_trimfix (x : JStr) : jsTrim (cleanTag x) = cleanTag x := by
  unfold cleanTag
  apply jsTrim_eq_self
  · intro c hc
    unfold jsLower at hc
    rw [List.head?_map] at hc
    cases hd : (jsTrim (x.dropWhile (fun c => c = '#'))).head? with
    | none => rw [hd] at hc; exact Option.noConfusion hc
    | some d =>
      rw [hd] at hc
      have hc2 : jsLowerChar d = c := by
        rw [show Option.map jsLowerChar (some d) = some (jsLowerChar d) from rfl] at hc
        exact Option.some_inj.mp hc
      rw [← hc2, isWs_jsLowerChar]
      exact jsTrim_head_not_ws _ d hd
  · intro c hc
    unfold jsLower at hc
    rw [List.getLast?_map] at hc
    cases hd : (jsTrim (x.dropWhile (fun c => c = '#'))).getLast? with
    | none => rw [hd] at hc; exact Option.noConfusion hc
    | some d =>
      rw [hd] at hc
      have hc2 : jsLowerChar d = c := by
        rw [show Option.map jsLowerChar (some d) = some (jsLowerChar d) from rfl] at hc
        exact Option.some_inj.mp hc
      rw [← hc2, isWs_jsLowerChar]
      exact jsTrim_getLast_not_ws _ d hd

theorem cleanTag_lower_fix (x : JStr) : jsLower (cleanTag x) = cleanTag x := by
  unfold cleanTag
  exact jsLower_idem _

theorem mem_dedupeHashtags_shape (X : List JStr) (y : JStr) (hy : y ∈ dedupeHashtags X) :
    ∃ x ∈ X, y = '#' :: cleanTag x ∧ cleanTag x ≠ [] := by
  unfold dedupeHashtags at hy
  have := (mem_setDedup _ _).mp hy
  rw [List.mem_filterMap] at this
  obtain ⟨x, hx, hnx⟩ := this
  rw [List.mem_filter] at hx
  unfold normTag at hnx
  by_cases hcl : cleanTag x = []
  · rw [if_pos hcl] at hnx; simp at hnx
  · rw [if_neg hcl] at hnx
    simp only [Option.some_inj] at hnx
    exact ⟨x, hx.1, hnx.symm, hcl⟩

theorem normTag_self (cl : JStr) (hne : cl ≠ []) (htr : jsTrim cl = cl)
    (hlo : jsLower cl = cl) (hhd : cl.head? ≠ some '#') :
    normTag ('#' :: cl) = some ('#' :: cl) := by
  have hdrop : ('#' :: cl).dropWhile (fun c => c = '#') = cl := by
    rw [List.dropWhile_cons]
    rw [if_pos (by simp)]
    cases hd : cl.head? with
    | none => cases cl with
      | nil => exact absurd rfl hne
      | cons a as => simp at hd
    | some d =>
      apply dropWhile_eq_self_of_head _ cl d hd
      simp only [decide_eq_false_iff_not]
      intro hcontra
      exact hhd (by rw [hd, hcontra])
  have hclean : cleanTag ('#' :: cl) = cl := by
    unfold cleanTag
    rw [hdrop, htr, hlo]
  unfold normTag
  rw [hclean, if_neg hne]

/-- The claim of C8 as stated fails for `dedupeHashtags`: on `['# #a']`,
stripping, trimming and re-prefixing yields `'##a'`, and a second
application strips both `#` signs and yields `'#a'`. -/
theorem c8_counterexample :
    dedupeHashtags (dedupeHashtags [("# #a".toList)]) ≠ dedupeHashtags [("# #a".toList)] := by
  decide

/-- C8, amended: `dedupeEmojis` is idempotent on every list, and
`dedupeHashtags` is idempotent provided no element's cleaned body (leading
`#` run stripped, trimmed, lowercased) itself begins with `#` — as in
`['# #a']` — in which case the re-prefixed tag gains a second `#` that a
second pass strips. -/
theorem c8_amended :
    (∀ X : List JStr,
      (∀ x ∈ X, (cleanTag x).head? ≠ some '#') →
        dedupeHashtags (dedupeHashtags X) = dedupeHashtags X) ∧
    (∀ Y : List JStr, dedupeEmojis (dedupeEmojis Y) = dedupeEmojis Y) := by
  constructor
  · intro X hX
    have hshape := mem_dedupeHashtags_shape X
    have hnodup : (dedupeHashtags X).Nodup := setDedup_nodup _
    have hfilter : (dedupeHashtags X).filter (fun tag => jsTrim tag ≠ []) = dedupeHashtags X := by
      apply List.filter_eq_self.mpr
      intro y hy
      obtain ⟨x, _, hy2, hcl⟩ := hshape y hy
      subst hy2
      refine decide_eq_true ?_
      rw [jsTrim_ne_nil_iff]
      simp only [List.any_cons]
      have h9 : (!isWs '#') = true := by decide
      simp [h9]
    have hmap : (dedupeHashtags X).filterMap normTag = dedupeHashtags X := by
      apply filterMap_eq_self
      intro y hy
      obtain ⟨x, hxX, hy2, hcl⟩ := hshape y hy
      subst hy2
      exact normTag_self (cleanTag x) hcl (cleanTag_trimfix x) (cleanTag_lower_fix x)
        (hX x hxX)
    show setDedup (((dedupeHashtags X).filter (fun tag => jsTrim tag ≠ [])).filterMap normTag) =
      dedupeHashtags X
    rw [hfilter, hmap, setDedup_eq_self_of_nodup _ hnodup]
  · intro Y
    have hshape : ∀ y ∈ dedupeEmojis Y, jsTrim y = y ∧ jsTrim y ≠ [] := by
      intro y hy
      unfold dedupeEmojis at hy
      have := (mem_setDedup _ _).mp hy
      rw [List.mem_map] at this
      obtain ⟨x, hx, hxy⟩ := this
      rw [List.mem_filter] at hx
      subst hxy
      refine ⟨jsTrim_idem x, ?_⟩
      rw [jsTrim_idem x]
      simpa using hx.2
    have hnodup : (dedupeEmojis Y).Nodup := setDedup_nodup _
    have hfilter : (dedupeEmojis Y).filter (fun e => jsTrim e ≠ []) = dedupeEmojis Y := by
      apply List.filter_eq_self.mpr
      intro y hy
      exact decide_eq_true (hshape y hy).2
    have hmap : (dedupeEmojis Y).map jsTrim = dedupeEmojis Y := by
      have := List.map_congr_left (fun y hy => (hshape y hy).1)
      rw [this]
      simp
    show setDedup (((dedupeEmojis Y).filter (fun e => jsTrim e ≠ [])).map jsTrim) =
      dedupeEmojis Y
    rw [hfilter, hmap, setDedup_eq_self_of_nodup _ hnodup]

/-- Witness for C8 at inputs whose cleaned bodies do not start with `#`. -/
theorem c8_witness :
    dedupeHashtags (dedupeHashtags [("#Ok".toList), ("ok".toList)]) =
      dedupeHashtags [("#Ok".toList), ("ok".toList)] ∧
    dedupeEmojis (dedupeEmojis [(" x ".toList)]) = dedupeEmojis [(" x ".toList)] :=
  ⟨c8_amended.1 _ (by decide), c8_amended.2 _⟩

/-- A tweet with its hashtags removed (used to state frame properties). -/
def eraseHashtags (t : Tweet) : Tweet := { t with hashtags := [] }

theorem balanceGo_map_erase (pool : List JStr) (m : Nat) :
    ∀ (i : Nat) (ts : List Tweet),
      (balanceGo pool m i ts).map eraseHashtags = ts.map eraseHashtags := by
  intro i ts
  induction ts generalizing i with
  | nil => rfl
  | cons t ts' ih =>
    simp only [balanceGo, List.map_cons, ih]
    rfl

/-- C10: `balanceHashtagsAcrossThread` preserves the thread frame — same
length, same order, and every field except `hashtags` unchanged (stated by
erasing `hashtags` on both sides). -/
theorem c10_balance_frame (tweets : List Tweet) (m : Nat) (h : tweets ≠ []) :
    (balanceHashtagsAcrossThread tweets m).map eraseHashtags = tweets.map eraseHashtags ∧
    (balanceHashtagsAcrossThread tweets m).length = tweets.length := by
  have hmap : (balanceHashtagsAcrossThread tweets m).map eraseHashtags =
      tweets.map eraseHashtags := by
    unfold balanceHashtagsAcrossThread
    rw [if_neg h]
    by_cases hpool :
        dedupeHashtags (tweets.foldl (fun acc t => acc ++ t.hashtags) []) = []
    · rw [if_pos hpool, List.map_map]
      rfl
    · rw [if_neg hpool]
      exact balanceGo_map_erase _ _ 0 tweets
  refine ⟨hmap, ?_⟩
  have := congrArg List.length hmap
  simpa using this

/-- Witness for C10 on a concrete two-tweet thread. -/
theorem c10_witness :
    (balanceHashtagsAcrossThread
        [{ dummyTweet with index := 1, hashtags := [("#a".toList)] },
         { dummyTweet with index := 2 }] 3).map eraseHashtags =
      [{ dummyTweet with index := 1, hashtags := [("#a".toList)] },
       { dummyTweet with index := 2 }].map eraseHashtags ∧
    (balanceHashtagsAcrossThread
        [{ dummyTweet with index := 1, hashtags := [("#a".toList)] },
         { dummyTweet with index := 2 }] 3).length = 2 :=
  c10_balance_frame _ 3 (by simp)

/-- The claim of C3 as stated fails: with a pool of one hashtag and two
messages, the round-robin distribution wraps and assigns `#a` to both. -/
theorem c3_counterexample :
    (balanceHashtagsAcrossThread
        [{ dummyTweet with index := 1, text := "x".toList, hashtags := [("#a".toList)] },
         { dummyTweet with index := 2, text := "y".toList }] 3).map Tweet.hashtags =
      [[("#a".toList)], [("#a".toList)]] := by
  decide

/-- Hashtag disjointness across distinct messages of a thread, as a
decidable check: no hashtag of a tweet occurs in any later tweet. -/
def pairwiseDisjointHashtags : List Tweet → Bool
  | [] => true
  | t :: ts =>
    (ts.all fun u => t.hashtags.all fun h => !(u.hashtags.contains h)) &&
    pairwiseDisjointHashtags ts

theorem jstr_contains_iff (l : List JStr) (x : JStr) : l.contains x = true ↔ x ∈ l := by
  simp [List.contains_iff_exists_mem_beq]

theorem mem_drop_take (pool : List JStr) (s m : Nat) (x : JStr)
    (hx : x ∈ (pool.drop s).take m) :
    ∃ j, j < m ∧ s + j < pool.length ∧ pool.getD (s + j) [] = x := by
  obtain ⟨i, hi, hix⟩ := List.mem_iff_getElem.mp hx
  rw [List.length_take, List.length_drop] at hi
  refine ⟨i, by omega, by omega, ?_⟩
  rw [List.getElem_take] at hix
  rw [List.getElem_drop] at hix
  rw [List.getD_eq_getElem _ _ (show s + i < pool.length by omega)]
  exact hix

theorem seg_disjoint (pool : List JStr) (hnodup : pool.Nodup) (a b m : Nat)
    (hab : a + m ≤ b) (hb : b + m ≤ pool.length) (x : JStr)
    (hxa : x ∈ (pool.drop a).take m) : x ∉ (pool.drop b).take m := by
  intro hxb
  obtain ⟨i, hi, hia, hxi⟩ := mem_drop_take pool a m x hxa
  obtain ⟨j, hj, hjb, hxj⟩ := mem_drop_take pool b m x hxb
  have heq : pool.getD (a + i) [] = pool.getD (b + j) [] := by rw [hxi, hxj]
  rw [List.getD_eq_getElem _ _ hia, List.getD_eq_getElem _ _ hjb] at heq
  have := (hnodup.getElem_inj_iff).mp heq
  omega

theorem collectTagsGo_eq (pool : List JStr) (s m : Nat)
    (hnodup : pool.Nodup) (hne : ∀ x ∈ pool, x ≠ []) (hsm : s + m ≤ pool.length) :
    ∀ (fuel i : Nat), fuel + i = m →
      collectTagsGo pool s m fuel i ((pool.drop s).take i) = (pool.drop s).take m := by
  intro fuel
  induction fuel with
  | zero =>
    intro i hi
    rw [Nat.zero_add] at hi
    rw [hi]
    rfl
  | succ f ih =>
    intro i hi
    have him : i < m := by omega
    have hsi : s + i < pool.length := by omega
    have hlen : ((pool.drop s).take i).length = i := by
      simp only [List.length_take, List.length_drop]
      omega
    have hmod : (s + i) % pool.length = s + i := Nat.mod_eq_of_lt (by omega)
    have step : ∀ acc : List JStr, collectTagsGo pool s m (f + 1) i acc =
        if i < m ∧ acc.length < m then
          collectTagsGo pool s m f (i + 1)
            (if pool.getD ((s + i) % pool.length) [] ≠ [] ∧
                ¬ (acc.contains (pool.getD ((s + i) % pool.length) []))
              then acc ++ [pool.getD ((s + i) % pool.length) []] else acc)
        else acc := fun acc => rfl
    rw [step]
    rw [if_pos ⟨him, by rw [hlen]; exact him⟩]
    rw [hmod]
    have hne2 : pool.getD (s + i) [] ≠ [] := by
      apply hne
      rw [List.getD_eq_getElem _ _ hsi]
      exact List.getElem_mem hsi
    have hnc : ¬ (((pool.drop s).take i).contains (pool.getD (s + i) []) = true) := by
      intro hc
      have hmem : pool.getD (s + i) [] ∈ (pool.drop s).take i :=
        (jstr_contains_iff _ _).mp hc
      obtain ⟨j, hj, hjlt, hjx⟩ := mem_drop_take pool s i _ hmem
      rw [List.getD_eq_getElem _ _ hjlt, List.getD_eq_getElem _ _ hsi] at hjx
      have := (hnodup.getElem_inj_iff).mp hjx
      omega
    rw [if_pos ⟨hne2, hnc⟩]
    have hdl : i < (pool.drop s).length := by
      rw [List.length_drop]; omega
    have hta : (pool.drop s).take (i + 1) =
        (pool.drop s).take i ++ [pool.getD (s + i) []] := by
      rw [List.take_succ]
      have hsome : (pool.drop s)[i]? = some (pool.getD (s + i) []) := by
        rw [List.getElem?_eq_getElem hdl, List.getElem_drop,
            List.getD_eq_getElem _ _ hsi]
      rw [hsome]
      rfl
    rw [← hta]
    exact ih (i + 1) (by omega)

theorem collectTags_eq (pool : List JStr) (s m : Nat)
    (hnodup : pool.Nodup) (hne : ∀ x ∈ pool, x ≠ []) (hsm : s + m ≤ pool.length) :
    collectTags pool s m = (pool.drop s).take m := by
  have := collectTagsGo_eq pool s m hnodup hne hsm m 0 (by omega)
  simpa [collectTags] using this

theorem balanceGo_hashtags (pool : List JStr) (m : Nat)
    (hnodup : pool.Nodup) (hne : ∀ x ∈ pool, x ≠ []) :
    ∀ (ts : List Tweet) (i : Nat), (i + ts.length) * m ≤ pool.length →
      ∀ u ∈ balanceGo pool m i ts,
        ∃ k, i ≤ k ∧ k < i + ts.length ∧ u.hashtags = (pool.drop (k * m)).take m := by
  intro ts
  induction ts with
  | nil =>
    intro i _ u hu
    exact absurd hu (by simp [balanceGo])
  | cons t ts ih =>
    intro i hb u hu
    have hlen : (t :: ts).length = ts.length + 1 := List.length_cons t ts
    have hbound : i * m + m ≤ pool.length := by
      have h1 : (i + 1) * m ≤ (i + (t :: ts).length) * m :=
        Nat.mul_le_mul_right m (by omega)
      have h2 : i * m + m = (i + 1) * m := by ring
      omega
    have hmod : (i * m) % pool.length = i * m := by
      rcases Nat.eq_zero_or_pos m with hm | hm
      · simp [hm]
      · exact Nat.mod_eq_of_lt (by omega)
    rw [balanceGo] at hu
    rcases List.mem_cons.mp hu with hu | hu
    · refine ⟨i, Nat.le_refl i, by omega, ?_⟩
      rw [hu]
      show collectTags pool ((i * m) % pool.length) m = (pool.drop (i * m)).take m
      rw [hmod]
      exact collectTags_eq pool (i * m) m hnodup hne hbound
    · have hb2 : ((i + 1) + ts.length) * m ≤ pool.length := by
        have h1 : (i + 1) + ts.length = i + (t :: ts).length := by omega
        rw [h1]
        exact hb
      obtain ⟨k, hk1, hk2, hk3⟩ := ih (i + 1) hb2 u hu
      exact ⟨k, by omega, by omega, hk3⟩

theorem balanceGo_pairwise (pool : List JStr) (m : Nat)
    (hnodup : pool.Nodup) (hne : ∀ x ∈ pool, x ≠ []) :
    ∀ (ts : List Tweet) (i : Nat), (i + ts.length) * m ≤ pool.length →
      pairwiseDisjointHashtags (balanceGo pool m i ts) = true := by
  intro ts
  induction ts with
  | nil => intro i _; rfl
  | cons t ts ih =>
    intro i hb
    have hlen : (t :: ts).length = ts.length + 1 := List.length_cons t ts
    have hbound : i * m + m ≤ pool.length := by
      have h1 : (i + 1) * m ≤ (i + (t :: ts).length) * m :=
        Nat.mul_le_mul_right m (by omega)
      have h2 : i * m + m = (i + 1) * m := by ring
      omega
    have hmod : (i * m) % pool.length = i * m := by
      rcases Nat.eq_zero_or_pos m with hm | hm
      · simp [hm]
      · exact Nat.mod_eq_of_lt (by omega)
    have hb2 : ((i + 1) + ts.length) * m ≤ pool.length := by
      have h1 : (i + 1) + ts.length = i + (t :: ts).length := by omega
      rw [h1]
      exact hb
    rw [balanceGo, pairwiseDisjointHashtags]
    rw [Bool.and_eq_true]
    refine ⟨?_, ih (i + 1) hb2⟩
    rw [List.all_eq_true]
    intro u hu
    rw [List.all_eq_true]
    intro h hh
    have hhseg : h ∈ (pool.drop (i * m)).take m := by
      have hhs : h ∈ collectTags pool ((i * m) % pool.length) m := hh
      rw [hmod, collectTags_eq pool (i * m) m hnodup hne hbound] at hhs
      exact hhs
    obtain ⟨k, hk1, hk2, hk3⟩ := balanceGo_hashtags pool m hnodup hne ts (i + 1) hb2 u hu
    have hab : i * m + m ≤ k * m := by
      have h1 : (i + 1) * m ≤ k * m := Nat.mul_le_mul_right m hk1
      have h2 : i * m + m = (i + 1) * m := by ring
      omega
    have hkb : k * m + m ≤ pool.length := by
      have h1 : (k + 1) * m ≤ (i + (t :: ts).length) * m :=
        Nat.mul_le_mul_right m (by omega)
      have h2 : k * m + m = (k + 1) * m := by ring
      omega
    have hnotmem : h ∉ u.hashtags := by
      rw [hk3]
      exact seg_disjoint pool hnodup (i * m) (k * m) m hab hkb h hhseg
    cases hcb : u.hashtags.contains h with
    | false => rfl
    | true => exact absurd ((jstr_contains_iff _ _).mp hcb) hnotmem

theorem pairwiseDisjoint_of_nil_hashtags :
    ∀ ts : List Tweet,
      pairwiseDisjointHashtags (ts.map (fun t => { t with hashtags := [] })) = true := by
  intro ts
  induction ts with
  | nil => rfl
  | cons t ts ih =>
    rw [List.map_cons, pairwiseDisjointHashtags]
    rw [Bool.and_eq_true]
    refine ⟨?_, ih⟩
    rw [List.all_eq_true]
    intro u hu
    rfl

/-- C3, amended: the round-robin redistribution of
`balanceHashtagsAcrossThread` keeps the messages' hashtag sets pairwise
disjoint whenever the deduplicated pool is large enough that the start
offsets never wrap, i.e. when the pool holds at least
`tweets.length * maxPerTweet` hashtags; with a smaller pool the start
offset `(i * maxPerTweet) % poolSize` wraps and hashtags repeat across
messages. -/
theorem c3_amended (tweets : List Tweet) (m : Nat)
    (h : tweets.length * m ≤
      (dedupeHashtags (tweets.foldl (fun acc t => acc ++ t.hashtags) [])).length) :
    pairwiseDisjointHashtags (balanceHashtagsAcrossThread tweets m) = true := by
  unfold balanceHashtagsAcrossThread
  by_cases hnil : tweets = []
  · rw [if_pos hnil, hnil]
    rfl
  rw [if_neg hnil]
  by_cases hpool : dedupeHashtags (tweets.foldl (fun acc t => acc ++ t.hashtags) []) = []
  · rw [if_pos hpool]
    exact pairwiseDisjoint_of_nil_hashtags tweets
  · rw [if_neg hpool]
    apply balanceGo_pairwise
    · exact setDedup_nodup _
    · intro x hx
      obtain ⟨y, hy, hx2, hcl⟩ := mem_dedupeHashtags_shape _ x hx
      rw [hx2]
      exact List.cons_ne_nil _ _
    · simpa using h

/-- Witness for the amended C3: a six-tag pool split three-and-three over
two messages, with no tag shared. -/
theorem c3_witness :
    pairwiseDisjointHashtags (balanceHashtagsAcrossThread
      [{ dummyTweet with
          index := 1,
          hashtags := [("#a".toList), ("#b".toList), ("#c".toList)] },
       { dummyTweet with
          index := 2,
          hashtags := [("#d".toList), ("#e".toList), ("#f".toList)] }] 3) = true :=
  c3_amended _ 3 (by decide)

/-- The claim of C1 as stated fails: the final pass of
`generateFallbackThread` recomputes `char_count` only for messages that
fail validation, so a valid final message keeps the count computed before
its CTA was attached.  Here the single message stores 31 while
`getCharCount(text, hashtags, cta)` is 57. -/
theorem c1_counterexample :
    ¬ ∀ t ∈ (generateFallbackThread ("Hello world tips".toList) cexParams1 rng0).getThread,
        t.char_count = getCharCount t.text t.hashtags (ctaStr t.cta) := by
  decide

/-- C1, amended: the final length-validation pass maps `fixTweetLength`
over the thread; a message whose combined count passes `validateTweetLength`
(count ≤ 280) is left entirely unchanged — including a `char_count` that may
be stale — while a failing message has its text truncated and its
`char_count` recomputed from the new text with its hashtags and CTA. -/
theorem c1_amended (t : Tweet) :
    ((validateTweetLength t.text t.hashtags (ctaStr t.cta)).isValid = true →
      fixTweetLength t = t ∧ getCharCount t.text t.hashtags (ctaStr t.cta) ≤ 280) ∧
    ((validateTweetLength t.text t.hashtags (ctaStr t.cta)).isValid = false →
      (fixTweetLength t).text = truncateSmart t.text 280 t.hashtags (ctaStr t.cta) ∧
      (fixTweetLength t).hashtags = t.hashtags ∧
      (fixTweetLength t).cta = t.cta ∧
      (fixTweetLength t).char_count =
        getCharCount (fixTweetLength t).text (fixTweetLength t).hashtags
          (ctaStr (fixTweetLength t).cta)) := by
  constructor
  · intro hv
    have hc : getCharCount t.text t.hashtags (ctaStr t.cta) ≤ 280 := by
      have : decide (getCharCount t.text t.hashtags (ctaStr t.cta) ≤ 280) = true := hv
      exact of_decide_eq_true this
    refine ⟨?_, hc⟩
    unfold fixTweetLength
    rw [if_pos hv]
  · intro hv
    unfold fixTweetLength
    rw [if_neg (by rw [hv]; exact Bool.false_ne_true)]
    exact ⟨rfl, rfl, rfl, rfl⟩

/-- Witness for the amended C1 on a message that passes validation. -/
theorem c1_witness :
    fixTweetLength dummyTweet = dummyTweet ∧
    getCharCount dummyTweet.text dummyTweet.hashtags (ctaStr dummyTweet.cta) ≤ 280 :=
  (c1_amended dummyTweet).1 (by decide)

/-- C7: `generateFallbackThread` never escapes with an exception: for every
input it returns either a success value carrying the full result object
(metadata, thread, summary, engagement score, publishing recommendations)
or the structured error object with the fixed message and code 500 built by
the `catch` block. -/
theorem c7_total (text : JStr) (params : Params) (rng : Rng) :
    (∃ r : ThreadResult, generateFallbackThread text params rng = .success r) ∨
    generateFallbackThread text params rng =
      .failure { error := "Failed to generate thread using local fallback".toList
                 code := 500 } := by
  unfold generateFallbackThread
  cases gftCore text params rng with
  | ok r => exact Or.inl ⟨r, rfl⟩
  | error e => exact Or.inr rfl

theorem utf16Len_append (a b : JStr) : utf16Len (a ++ b) = utf16Len a + utf16Len b := by
  induction a with
  | nil => show utf16Len b = 0 + utf16Len b; omega
  | cons c cs ih =>
    show utf16Units c + utf16Len (cs ++ b) = utf16Units c + utf16Len cs + utf16Len b
    rw [ih]
    omega

theorem utf16Units_pos (c : Char) : 1 ≤ utf16Units c := by
  unfold utf16Units
  split <;> omega

theorem utf16Units_le_two (c : Char) : utf16Units c ≤ 2 := by
  unfold utf16Units
  split <;> omega

theorem jsLastIndexOfFromGo_le (c : Char) (m : Nat) :
    ∀ (l : JStr) (p : Nat) (best : Int), best ≤ (m : Int) →
      jsLastIndexOfFromGo c m l p best ≤ (m : Int) := by
  intro l
  induction l with
  | nil => intro p best h; exact h
  | cons d ds ih =>
    intro p best h
    show jsLastIndexOfFromGo c m ds (p + utf16Units d)
      (if d = c ∧ p ≤ m then (p : Int) else best) ≤ (m : Int)
    apply ih
    by_cases hc : d = c ∧ p ≤ m
    · rw [if_pos hc]
      exact_mod_cast hc.2
    · rw [if_neg hc]
      exact h

theorem jsLastIndexOfFrom_le (l : JStr) (c : Char) (m : Nat) :
    jsLastIndexOfFrom l c m ≤ (m : Int) :=
  jsLastIndexOfFromGo_le c m l 0 (-1) (by omega)

theorem mem_jsSubstringGo :
    ∀ (l : JStr) (p a b i : Nat) (h : i < l.length),
      a ≤ p + utf16Len (l.take i) → p + utf16Len (l.take i) < b →
      l.get ⟨i, h⟩ ∈ jsSubstringGo l p a b := by
  intro l
  induction l with
  | nil => intro p a b i h; exact absurd h (by simp)
  | cons c cs ih =>
    intro p a b i h h1 h2
    cases i with
    | zero =>
      simp only [List.take_zero, utf16Len, Nat.add_zero] at h1 h2
      show (c :: cs).get ⟨0, h⟩ ∈
        (if a ≤ p ∧ p < b then [c] else []) ++ jsSubstringGo cs (p + utf16Units c) a b
      rw [if_pos ⟨h1, h2⟩]
      exact List.mem_cons_self c _
    | succ j =>
      have hj : j < cs.length := by simpa using h
      have hpos : p + utf16Len ((c :: cs).take (j + 1)) =
          (p + utf16Units c) + utf16Len (cs.take j) := by
        show p + (utf16Units c + utf16Len (cs.take j)) = (p + utf16Units c) + utf16Len (cs.take j)
        omega
      rw [hpos] at h1 h2
      have hrec := ih (p + utf16Units c) a b j hj h1 h2
      show (c :: cs).get ⟨j + 1, h⟩ ∈
        (if a ≤ p ∧ p < b then [c] else []) ++ jsSubstringGo cs (p + utf16Units c) a b
      exact List.mem_append_right _ hrec

theorem jsSubstring_zero_cons (c : Char) (cs : JStr) (b : Nat) (hb : 0 < b) :
    jsSubstring (c :: cs) 0 b = c :: jsSubstringGo cs (utf16Units c) 0 b := by
  show (if 0 ≤ 0 ∧ 0 < b then [c] else []) ++ jsSubstringGo cs (0 + utf16Units c) 0 b =
    c :: jsSubstringGo cs (utf16Units c) 0 b
  rw [if_pos ⟨Nat.le_refl 0, hb⟩, Nat.zero_add]
  rfl

theorem utf16Len_take_last (l : JStr) (h : l ≠ []) :
    utf16Len (l.take (l.length - 1)) + utf16Units (l.getLast h) = utf16Len l := by
  conv_rhs => rw [← List.dropLast_append_getLast h]
  rw [utf16Len_append, List.dropLast_eq_take]
  show utf16Len (l.take (l.length - 1)) + utf16Units (l.getLast h) =
    utf16Len (l.take (l.length - 1)) + (utf16Units (l.getLast h) + utf16Len [])
  show utf16Len (l.take (l.length - 1)) + utf16Units (l.getLast h) =
    utf16Len (l.take (l.length - 1)) + (utf16Units (l.getLast h) + 0)
  omega

theorem trim_substring_prefix_ne_nil (l : JStr) (b : Nat)
    (hl : jsTrim l = l) (hne : l ≠ []) (hb : 0 < b) :
    jsTrim (jsSubstring l 0 b) ≠ [] := by
  cases l with
  | nil => exact absurd rfl hne
  | cons c cs =>
    rw [jsSubstring_zero_cons c cs b hb]
    rw [jsTrim_ne_nil_iff, List.any_eq_true]
    refine ⟨c, List.mem_cons_self c _, ?_⟩
    have hcw : isWs c = false := jsTrim_head_not_ws (c :: cs) c (by rw [hl]; rfl)
    simp [hcw]

theorem trim_substring_suffix_ne_nil (l : JStr) (a : Nat)
    (hl : jsTrim l = l) (hne : l ≠ []) (ha : a + 2 ≤ utf16Len l) :
    jsTrim (jsSubstring l a (utf16Len l)) ≠ [] := by
  have hlen : 0 < l.length := List.length_pos.mpr hne
  have hi : l.length - 1 < l.length := by omega
  have hpos := utf16Len_take_last l hne
  have hu1 := utf16Units_pos (l.getLast hne)
  have hu2 := utf16Units_le_two (l.getLast hne)
  have hgl : l.get ⟨l.length - 1, hi⟩ = l.getLast hne := (List.getLast_eq_getElem l hne).symm
  have hmem : l.get ⟨l.length - 1, hi⟩ ∈ jsSubstringGo l 0 a (utf16Len l) := by
    apply mem_jsSubstringGo l 0 a (utf16Len l) (l.length - 1) hi
    · rw [Nat.zero_add]; omega
    · rw [Nat.zero_add]; omega
  rw [jsTrim_ne_nil_iff, List.any_eq_true]
  refine ⟨l.getLast hne, ?_, ?_⟩
  · rw [← hgl]; exact hmem
  · have h9 : l.getLast? = some (l.getLast hne) := List.getLast?_eq_getLast l hne
    have hlw : isWs (l.getLast hne) = false :=
      jsTrim_getLast_not_ws l (l.getLast hne) (by rw [hl]; exact h9)
    simp [hlw]

/-- The two-part split performed by one iteration of the
`ensureExactTweetCount` loop on the longest tweet: the first part replaces
the longest tweet in place, the second part is inserted after it with fresh
`hashtags` and `emoji_suggestions`. -/
def ensureLoopSplit (li : Nat) (longest : Tweet) (sp : Int) (result : List Tweet) :
    List Tweet :=
  listInsertAt (li + 1)
    { longest with
      text := jsTrim (jsSubstring longest.text sp.toNat (utf16Len longest.text))
      hashtags := [], emoji_suggestions := [] }
    (result.set li { longest with text := jsTrim (jsSubstring longest.text 0 sp.toNat) })

theorem ensureLoop_succ (target f : Nat) (t : Tweet) (ts : List Tweet) :
    ensureLoop target (f + 1) (t :: ts) =
      if (t :: ts).length < target then
        if utf16Len ((t :: ts).getD (findLongestIdx (t :: ts)) dummyTweet).text < 100 then
          .ok (t :: ts)
        else if 0 < jsLastIndexOfFrom
            ((t :: ts).getD (findLongestIdx (t :: ts)) dummyTweet).text SP
            (utf16Len ((t :: ts).getD (findLongestIdx (t :: ts)) dummyTweet).text / 2) then
          ensureLoop target f
            (ensureLoopSplit (findLongestIdx (t :: ts))
              ((t :: ts).getD (findLongestIdx (t :: ts)) dummyTweet)
              (jsLastIndexOfFrom ((t :: ts).getD (findLongestIdx (t :: ts)) dummyTweet).text SP
                (utf16Len ((t :: ts).getD (findLongestIdx (t :: ts)) dummyTweet).text / 2))
              (t :: ts))
        else .ok (t :: ts)
      else .ok (t :: ts) := rfl

theorem ensureLoopSplit_length (li : Nat) (longest : Tweet) (sp : Int)
    (result : List Tweet) :
    (ensureLoopSplit li longest sp result).length = result.length + 1 := by
  unfold ensureLoopSplit
  rw [length_listInsertAt, List.length_set]

theorem mem_ensureLoopSplit (li : Nat) (longest : Tweet) (sp : Int) (result : List Tweet)
    (x : Tweet) (hx : x ∈ ensureLoopSplit li longest sp result) :
    x.text = jsTrim (jsSubstring longest.text sp.toNat (utf16Len longest.text)) ∨
    x.text = jsTrim (jsSubstring longest.text 0 sp.toNat) ∨ x ∈ result := by
  unfold ensureLoopSplit at hx
  rcases mem_listInsertAt _ _ _ _ hx with h1 | h1
  · left; rw [h1]
  · rcases List.mem_or_eq_of_mem_set h1 with h2 | h2
    · right; right; exact h2
    · right; left; rw [h2]

theorem ensureLoop_master (target : Nat) :
    ∀ (fuel : Nat) (result : List Tweet), result ≠ [] →
      ∃ r, ensureLoop target fuel result = .ok r ∧ r ≠ [] ∧
        result.length ≤ r.length ∧ r.length ≤ max result.length target ∧
        ((∀ x ∈ result, jsTrim x.text = x.text ∧ x.text ≠ []) →
          ∀ x ∈ r, jsTrim x.text = x.text ∧ x.text ≠ []) := by
  intro fuel
  induction fuel with
  | zero =>
    intro result h
    exact ⟨result, rfl, h, Nat.le_refl _, Nat.le_max_left _ _, fun hP => hP⟩
  | succ f ih =>
    intro result h
    cases result with
    | nil => exact absurd rfl h
    | cons t ts =>
      rw [ensureLoop_succ]
      by_cases hlt : (t :: ts).length < target
      · rw [if_pos hlt]
        by_cases h100 :
            utf16Len ((t :: ts).getD (findLongestIdx (t :: ts)) dummyTweet).text < 100
        · rw [if_pos h100]
          exact ⟨t :: ts, rfl, h, Nat.le_refl _, Nat.le_max_left _ _, fun hP => hP⟩
        · rw [if_neg h100]
          by_cases hsp : 0 < jsLastIndexOfFrom
              ((t :: ts).getD (findLongestIdx (t :: ts)) dummyTweet).text SP
              (utf16Len ((t :: ts).getD (findLongestIdx (t :: ts)) dummyTweet).text / 2)
          · rw [if_pos hsp]
            have hr2len := ensureLoopSplit_length (findLongestIdx (t :: ts))
              ((t :: ts).getD (findLongestIdx (t :: ts)) dummyTweet)
              (jsLastIndexOfFrom ((t :: ts).getD (findLongestIdx (t :: ts)) dummyTweet).text SP
                (utf16Len ((t :: ts).getD (findLongestIdx (t :: ts)) dummyTweet).text / 2))
              (t :: ts)
            have hr2ne : ensureLoopSplit (findLongestIdx (t :: ts))
                ((t :: ts).getD (findLongestIdx (t :: ts)) dummyTweet)
                (jsLastIndexOfFrom ((t :: ts).getD (findLongestIdx (t :: ts)) dummyTweet).text SP
                  (utf16Len ((t :: ts).getD (findLongestIdx (t :: ts)) dummyTweet).text / 2))
                (t :: ts) ≠ [] := by
              apply List.ne_nil_of_length_pos
              omega
            obtain ⟨r, hr, hrne, hlb, hub, hpres⟩ := ih _ hr2ne
            rw [hr2len] at hlb hub
            have hmax1 : max ((t :: ts).length + 1) target = target :=
              Nat.max_eq_right (by omega)
            have hmax2 : max (t :: ts).length target = target :=
              Nat.max_eq_right (by omega)
            rw [hmax1] at hub
            refine ⟨r, hr, hrne, by omega, by rw [hmax2]; exact hub, ?_⟩
            intro hP
            apply hpres
            intro x hx
            have hmemL : (t :: ts).getD (findLongestIdx (t :: ts)) dummyTweet ∈ t :: ts := by
              by_cases hli : findLongestIdx (t :: ts) < (t :: ts).length
              · rw [List.getD_eq_getElem _ _ hli]
                exact List.getElem_mem hli
              · exfalso
                rw [List.getD_eq_default _ _ (by omega)] at h100
                exact h100 (by decide)
            obtain ⟨hLfix, hLne⟩ := hP _ hmemL
            have hsple := jsLastIndexOfFrom_le
              ((t :: ts).getD (findLongestIdx (t :: ts)) dummyTweet).text SP
              (utf16Len ((t :: ts).getD (findLongestIdx (t :: ts)) dummyTweet).text / 2)
            rcases mem_ensureLoopSplit _ _ _ _ x hx with h2 | h2 | h2
            · rw [h2]
              refine ⟨jsTrim_idem _, ?_⟩
              apply trim_substring_suffix_ne_nil _ _ hLfix hLne
              omega
            · rw [h2]
              refine ⟨jsTrim_idem _, ?_⟩
              apply trim_substring_prefix_ne_nil _ _ hLfix hLne
              omega
            · exact hP x h2
          · rw [if_neg hsp]
            exact ⟨t :: ts, rfl, h, Nat.le_refl _, Nat.le_max_left _ _, fun hP => hP⟩
      · rw [if_neg hlt]
        exact ⟨t :: ts, rfl, h, Nat.le_refl _, Nat.le_max_left _ _, fun hP => hP⟩

theorem length_reindexGo : ∀ (i : Nat) (l : List Tweet), (reindexGo i l).length = l.length := by
  intro i l
  induction l generalizing i with
  | nil => rfl
  | cons t ts ih => simp [reindexGo, ih]

theorem texts_reindexGo :
    ∀ (i : Nat) (l : List Tweet), (reindexGo i l).map Tweet.text = l.map Tweet.text := by
  intro i l
  induction l generalizing i with
  | nil => rfl
  | cons t ts ih =>
    show ({ t with index := i + 1 } : Tweet).text :: (reindexGo (i + 1) ts).map Tweet.text =
      t.text :: ts.map Tweet.text
    rw [ih]

theorem mem_reindex_text (l : List Tweet) (t : Tweet) (h : t ∈ reindex l) :
    ∃ u ∈ l, t.text = u.text := by
  have h1 : t.text ∈ (reindexGo 0 l).map Tweet.text := List.mem_map_of_mem Tweet.text h
  rw [texts_reindexGo] at h1
  obtain ⟨u, hu, hut⟩ := List.mem_map.mp h1
  exact ⟨u, hu, hut.symm⟩

/-- The claim of C2 as stated fails: on input `"hi"` with target count 3
(within [1,20]), segmentation yields two one-character segments and the
rebalancing loop breaks immediately (the longest tweet is under 100 units),
returning 2 tweets, not 3. -/
theorem c2_counterexample :
    (gftEnsured ("hi".toList) { defaultParams with maxTweets := 3 } rng0).toOption.map
        List.length = some 2 ∧
    (gftEnsured ("hi".toList) { defaultParams with maxTweets := 3 } rng0).toOption.map
        List.length ≠ some 3 := by
  decide

/-- C2, amended: `ensureExactTweetCount` returns at most `target` tweets
(reaching `target` exactly when given at least `target` tweets, but possibly
fewer when it must grow a short list, since the split loop stops on tweets
under 100 units or without a usable split point); it succeeds on every
non-empty input; and it preserves trimmed non-emptiness of the texts: if
every input text is trim-fixed and non-empty, so is every output text. -/
theorem c2_amended (tweets : List Tweet) (target : Nat) :
    (∀ l, ensureExactTweetCount tweets target = .ok l → l.length ≤ target) ∧
    (target ≤ tweets.length →
      ∀ l, ensureExactTweetCount tweets target = .ok l → l.length = target) ∧
    (tweets ≠ [] → ∃ l, ensureExactTweetCount tweets target = .ok l) ∧
    ((∀ x ∈ tweets, jsTrim x.text = x.text ∧ x.text ≠ []) →
      ∀ l, ensureExactTweetCount tweets target = .ok l →
        ∀ x ∈ l, jsTrim x.text = x.text ∧ x.text ≠ []) := by
  by_cases h1 : tweets.length = target
  · have he : ensureExactTweetCount tweets target = .ok tweets := by
      unfold ensureExactTweetCount
      rw [if_pos h1]
    refine ⟨?_, ?_, ?_, ?_⟩
    · intro l hl
      rw [he] at hl
      injection hl with h4
      subst h4
      omega
    · intro _ l hl
      rw [he] at hl
      injection hl with h4
      subst h4
      exact h1
    · intro _
      exact ⟨tweets, he⟩
    · intro hP l hl
      rw [he] at hl
      injection hl with h4
      subst h4
      exact hP
  · by_cases h2 : tweets.length > target
    · have he : ensureExactTweetCount tweets target =
          .ok (reindex (tweets.take ((tweets.length - (tweets.length - target)) / 2) ++
            tweets.drop ((tweets.length - (tweets.length - target)) / 2 +
              (tweets.length - target)))) := by
        unfold ensureExactTweetCount
        rw [if_neg h1, if_pos h2]
      have hlen : (reindex (tweets.take ((tweets.length - (tweets.length - target)) / 2) ++
          tweets.drop ((tweets.length - (tweets.length - target)) / 2 +
            (tweets.length - target)))).length = target := by
        show (reindexGo 0 _).length = target
        rw [length_reindexGo, List.length_append, List.length_take, List.length_drop]
        omega
      refine ⟨?_, ?_, ?_, ?_⟩
      · intro l hl
        rw [he] at hl
        injection hl with h4
        subst h4
        omega
      · intro _ l hl
        rw [he] at hl
        injection hl with h4
        subst h4
        exact hlen
      · intro _
        exact ⟨_, he⟩
      · intro hP l hl
        rw [he] at hl
        injection hl with h4
        subst h4
        intro x hx
        obtain ⟨u, hu, hxu⟩ := mem_reindex_text _ x hx
        have hu2 : u ∈ tweets := by
          rcases List.mem_append.mp hu with h5 | h5
          · exact List.mem_of_mem_take h5
          · exact List.mem_of_mem_drop h5
        rw [hxu]
        exact hP u hu2
    · have h3 : tweets.length < target := by omega
      by_cases hnil : tweets = []
      · subst hnil
        have htz : target ≠ 0 := by omega
        obtain ⟨k, hk⟩ := Nat.exists_eq_succ_of_ne_zero htz
        subst hk
        have hstep : ensureLoop (k + 1) (k + 1) [] =
            if ([] : List Tweet).length < k + 1 then Except.error () else Except.ok [] := rfl
        have hel : ensureLoop (k + 1) (k + 1) [] = Except.error () := by
          rw [hstep, if_pos (by omega)]
        have he : ensureExactTweetCount [] (k + 1) = .error () := by
          unfold ensureExactTweetCount
          rw [if_neg (by omega), if_neg (by omega)]
          have hfe : (k + 1) - ([] : List Tweet).length = k + 1 := rfl
          rw [hfe, hel]
          rfl
        refine ⟨?_, ?_, ?_, ?_⟩
        · intro l hl
          rw [he] at hl
          exact Except.noConfusion hl
        · intro _ l hl
          rw [he] at hl
          exact Except.noConfusion hl
        · intro hfalse
          exact absurd rfl hfalse
        · intro _ l hl
          rw [he] at hl
          exact Except.noConfusion hl
      · obtain ⟨r, hr, hrne, hlb, hub, hpres⟩ :=
          ensureLoop_master target (target - tweets.length) tweets hnil
        have he : ensureExactTweetCount tweets target = .ok (reindex (r.take target)) := by
          unfold ensureExactTweetCount
          rw [if_neg h1, if_neg h2, hr]
          rfl
        have hlen : (reindex (r.take target)).length ≤ target := by
          show (reindexGo 0 _).length ≤ target
          rw [length_reindexGo, List.length_take]
          omega
        refine ⟨?_, ?_, ?_, ?_⟩
        · intro l hl
          rw [he] at hl
          injection hl with h4
          subst h4
          exact hlen
        · intro hge
          exact absurd hge (by omega)
        · intro _
          exact ⟨_, he⟩
        · intro hP l hl
          rw [he] at hl
          injection hl with h4
          subst h4
          intro x hx
          obtain ⟨u, hu, hxu⟩ := mem_reindex_text _ x hx
          rw [hxu]
          exact hpres hP u (List.mem_of_mem_take hu)

/-- Concrete one-tweet thread used by the C2 witness. -/
def c2wTweets : List Tweet := [{ dummyTweet with text := "ab".toList }]

/-- Witness for the amended C2, exercising all four parts at a one-tweet
thread with target 1. -/
theorem c2_witness :
    c2wTweets.length ≤ 1 ∧ c2wTweets.length = 1 ∧
    (∃ l, ensureExactTweetCount c2wTweets 1 = .ok l) ∧
    (∀ x ∈ c2wTweets, jsTrim x.text = x.text ∧ x.text ≠ []) :=
  ⟨(c2_amended c2wTweets 1).1 c2wTweets rfl,
   (c2_amended c2wTweets 1).2.1 (by decide) c2wTweets rfl,
   (c2_amended c2wTweets 1).2.2.1 (by decide),
   (c2_amended c2wTweets 1).2.2.2 (by decide) c2wTweets rfl⟩

theorem ctas_reindexGo :
    ∀ (i : Nat) (l : List Tweet), (reindexGo i l).map Tweet.cta = l.map Tweet.cta := by
  intro i l
  induction l generalizing i with
  | nil => rfl
  | cons t ts ih =>
    show ({ t with index := i + 1 } : Tweet).cta :: (reindexGo (i + 1) ts).map Tweet.cta =
      t.cta :: ts.map Tweet.cta
    rw [ih]

theorem fixTweetLength_cta (t : Tweet) : (fixTweetLength t).cta = t.cta := by
  cases hv : (validateTweetLength t.text t.hashtags (ctaStr t.cta)).isValid with
  | true =>
    simp only [fixTweetLength, hv]
    rfl
  | false =>
    simp only [fixTweetLength, hv]
    rfl

theorem map_cta_fix (l : List Tweet) :
    (l.map fixTweetLength).map Tweet.cta = l.map Tweet.cta := by
  rw [List.map_map]
  exact List.map_congr_left (fun t _ => fixTweetLength_cta t)

theorem gthGo_cta (n : Nat) (o : HtOptions) :
    ∀ (ts : List Tweet) (i : Nat) (used : List JStr),
      (gthGo n o i used ts).map Tweet.cta = ts.map Tweet.cta := by
  intro ts
  induction ts with
  | nil => intro i used; rfl
  | cons t ts ih =>
    intro i used
    show ({ t with hashtags := _ } : Tweet).cta :: (gthGo n o (i + 1) _ ts).map Tweet.cta =
      t.cta :: ts.map Tweet.cta
    rw [ih]

theorem map_cta_gth (l : List Tweet) (o : HtOptions) :
    (generateThreadHashtags l o).map Tweet.cta = l.map Tweet.cta := by
  unfold generateThreadHashtags
  by_cases h : l = []
  · rw [if_pos h]
  · rw [if_neg h]
    exact gthGo_cta l.length o l 0 []

theorem map_cta_balance (l : List Tweet) (m : Nat) :
    (balanceHashtagsAcrossThread l m).map Tweet.cta = l.map Tweet.cta := by
  have hkey : ∀ x : List Tweet, x.map Tweet.cta = (x.map eraseHashtags).map Tweet.cta := by
    intro x
    rw [List.map_map]
    exact (List.map_congr_left (fun t _ => rfl)).symm
  by_cases h : l = []
  · rw [h]
    rfl
  · unfold balanceHashtagsAcrossThread
    rw [if_neg h]
    by_cases hpool : dedupeHashtags (l.foldl (fun acc t => acc ++ t.hashtags) []) = []
    · rw [if_pos hpool, List.map_map]
      exact List.map_congr_left (fun t _ => rfl)
    · rw [if_neg hpool]
      rw [hkey (balanceGo (dedupeHashtags (l.foldl (fun acc t => acc ++ t.hashtags) [])) m 0 l)]
      rw [balanceGo_map_erase]
      rw [← hkey l]

theorem map_cta_dedupe (l : List Tweet) :
    (dedupeHashtagsAndEmojis l).map Tweet.cta = l.map Tweet.cta := by
  unfold dedupeHashtagsAndEmojis
  rw [map_cta_balance, List.map_map]
  exact List.map_congr_left (fun t _ => rfl)

theorem listInsertAt_eq_take_drop {α : Type} (a : α) :
    ∀ (n : Nat) (l : List α), n ≤ l.length →
      listInsertAt n a l = l.take n ++ a :: l.drop n := by
  intro n l
  induction l generalizing n with
  | nil =>
    intro h
    have h0 : n = 0 := by simpa using h
    subst h0
    rfl
  | cons x xs ih =>
    intro h
    cases n with
    | zero => rfl
    | succ j =>
      show x :: listInsertAt j a xs = x :: (xs.take j ++ a :: xs.drop j)
      rw [ih j (by simpa using h)]

theorem getLast?_replicate_pos (m : Nat) (hm : 1 ≤ m) (x : Option JStr) :
    (List.replicate m x).getLast? = some x := by
  obtain ⟨j, hj⟩ := Nat.exists_eq_add_of_le hm
  subst hj
  rw [Nat.add_comm, List.replicate_succ']
  rw [List.getLast?_append]
  rfl

theorem shape_last (k m : Nat) (c : JStr) (hm : 1 ≤ m) :
    (List.replicate k (none : Option JStr) ++ List.replicate m (some c)).getLast? =
      some (some c) := by
  rw [List.getLast?_append, getLast?_replicate_pos m hm]
  rfl

theorem shape_m_pos (k m : Nat) (c : JStr)
    (h : (List.replicate k (none : Option JStr) ++ List.replicate m (some c)).getLast? =
      some (some c)) : 1 ≤ m := by
  by_contra hm
  have hm0 : m = 0 := by omega
  subst hm0
  simp only [List.replicate_zero, List.append_nil] at h
  cases k with
  | zero => simp at h
  | succ j =>
    rw [getLast?_replicate_pos (j + 1) (by omega)] at h
    simp at h

theorem shape_get (k m : Nat) (c : JStr) (i : Nat)
    (h : i < (List.replicate k (none : Option JStr) ++ List.replicate m (some c)).length) :
    (List.replicate k (none : Option JStr) ++ List.replicate m (some c)).get ⟨i, h⟩ =
      if i < k then none else some c := by
  by_cases hik : i < k
  · rw [if_pos hik]
    rw [List.get_eq_getElem, List.getElem_append_left (by simpa using hik)]
    exact List.getElem_replicate _ _
  · rw [if_neg hik]
    rw [List.get_eq_getElem, List.getElem_append_right (by simpa using hik)]
    exact List.getElem_replicate _ _

theorem shape_take_drop (k m s d : Nat) (c : JStr) (hsd : s ≤ d) :
    ∃ k2 m2,
      (List.replicate k (none : Option JStr) ++ List.replicate m (some c)).take s ++
        (List.replicate k (none : Option JStr) ++ List.replicate m (some c)).drop d =
      List.replicate k2 (none : Option JStr) ++ List.replicate m2 (some c) := by
  rw [List.take_append_eq_append_take, List.drop_append_eq_append_drop]
  rw [List.take_replicate, List.take_replicate, List.drop_replicate, List.drop_replicate]
  rw [List.length_replicate]
  by_cases hsk : s ≤ k
  · have e2 : min (s - k) m = 0 := by omega
    rw [e2, List.replicate_zero, List.append_nil]
    refine ⟨min s k + (k - d), m - (d - k), ?_⟩
    rw [List.replicate_add, List.append_assoc]
  · have e3 : k - d = 0 := by omega
    rw [e3, List.replicate_zero, List.nil_append]
    refine ⟨min s k, min (s - k) m + (m - (d - k)), ?_⟩
    rw [List.replicate_add, List.append_assoc]

theorem shape_insert (k m li : Nat) (c : JStr)
    (h : li < (List.replicate k (none : Option JStr) ++ List.replicate m (some c)).length) :
    ∃ k2 m2,
      listInsertAt (li + 1)
        ((List.replicate k (none : Option JStr) ++ List.replicate m (some c)).get ⟨li, h⟩)
        (List.replicate k (none : Option JStr) ++ List.replicate m (some c)) =
      List.replicate k2 (none : Option JStr) ++ List.replicate m2 (some c) := by
  have hkm : li < k + m := by simpa using h
  rw [listInsertAt_eq_take_drop _ (li + 1) _ (by simp; omega)]
  rw [shape_get]
  rw [List.take_append_eq_append_take, List.drop_append_eq_append_drop,
      List.take_replicate, List.take_replicate, List.drop_replicate, List.drop_replicate,
      List.length_replicate]
  by_cases hik : li < k
  · rw [if_pos hik]
    have e2 : min (li + 1 - k) m = 0 := by omega
    rw [e2, List.replicate_zero, List.append_nil]
    rw [← List.singleton_append,
        show [(none : Option JStr)] = List.replicate 1 none from rfl]
    refine ⟨min (li + 1) k + 1 + (k - (li + 1)), m - (li + 1 - k), ?_⟩
    simp [List.replicate_add, List.append_assoc]
  · rw [if_neg hik]
    have e3 : k - (li + 1) = 0 := by omega
    rw [e3, List.replicate_zero, List.nil_append]
    rw [← List.singleton_append,
        show [some c] = List.replicate 1 (some c) from rfl]
    refine ⟨min (li + 1) k, min (li + 1 - k) m + 1 + (m - (li + 1 - k)), ?_⟩
    simp [List.replicate_add, List.append_assoc]

theorem shape_getD (k m : Nat) (c : JStr) (i : Nat) (h : i < k + m) :
    (List.replicate k (none : Option JStr) ++ List.replicate m (some c)).getD i none =
      if i < k then none else some c := by
  have hl : i < (List.replicate k (none : Option JStr) ++ List.replicate m (some c)).length := by
    simp
    omega
  rw [List.getD_eq_getElem _ _ hl]
  have := shape_get k m c i hl
  rw [List.get_eq_getElem] at this
  exact this

theorem shape_insertD (k m li : Nat) (c : JStr) (h : li < k + m) :
    ∃ k2 m2,
      listInsertAt (li + 1)
        ((List.replicate k (none : Option JStr) ++ List.replicate m (some c)).getD li none)
        (List.replicate k (none : Option JStr) ++ List.replicate m (some c)) =
      List.replicate k2 (none : Option JStr) ++ List.replicate m2 (some c) := by
  rw [shape_getD k m c li h]
  rw [listInsertAt_eq_take_drop _ (li + 1) _ (by simp; omega)]
  rw [List.take_append_eq_append_take, List.drop_append_eq_append_drop,
      List.take_replicate, List.take_replicate, List.drop_replicate, List.drop_replicate,
      List.length_replicate]
  by_cases hik : li < k
  · rw [if_pos hik]
    have e2 : min (li + 1 - k) m = 0 := by omega
    rw [e2, List.replicate_zero, List.append_nil]
    rw [← List.singleton_append,
        show [(none : Option JStr)] = List.replicate 1 none from rfl]
    refine ⟨min (li + 1) k + 1 + (k - (li + 1)), m - (li + 1 - k), ?_⟩
    simp [List.replicate_add, List.append_assoc]
  · rw [if_neg hik]
    have e3 : k - (li + 1) = 0 := by omega
    rw [e3, List.replicate_zero, List.nil_append]
    rw [← List.singleton_append,
        show [some c] = List.replicate 1 (some c) from rfl]
    refine ⟨min (li + 1) k, min (li + 1 - k) m + 1 + (m - (li + 1 - k)), ?_⟩
    simp [List.replicate_add, List.append_assoc]

theorem set_getD_self (l : List (Option JStr)) (n : Nat) (h : n < l.length) :
    l.set n (l.getD n none) = l := by
  rw [List.getD_eq_getElem _ _ h]
  exact list_set_self l n h

theorem map_cta_ensureLoopSplit (li : Nat) (longest : Tweet) (sp : Int)
    (result : List Tweet) (hli : li < result.length)
    (hlg : longest = result.getD li dummyTweet) :
    (ensureLoopSplit li longest sp result).map Tweet.cta =
      listInsertAt (li + 1) ((result.map Tweet.cta).getD li none)
        (result.map Tweet.cta) := by
  have hml : li < (result.map Tweet.cta).length := by simpa using hli
  have hv : longest.cta = (result.map Tweet.cta).getD li none := by
    rw [hlg, List.getD_eq_getElem _ _ hli, List.getD_eq_getElem _ _ hml,
        List.getElem_map]
  unfold ensureLoopSplit
  rw [map_listInsertAt, List.map_set]
  show listInsertAt (li + 1) longest.cta ((result.map Tweet.cta).set li longest.cta) = _
  rw [hv, set_getD_self _ _ hml]

theorem ensureLoop_cta (target : Nat) (c : JStr) :
    ∀ (fuel : Nat) (result r : List Tweet),
      ensureLoop target fuel result = .ok r →
      (∃ k m, result.map Tweet.cta =
        List.replicate k none ++ List.replicate m (some c)) →
      (result ≠ [] → (result.map Tweet.cta).getLast? = some (some c)) →
      (∃ k m, r.map Tweet.cta = List.replicate k none ++ List.replicate m (some c)) ∧
      (r ≠ [] → (r.map Tweet.cta).getLast? = some (some c)) := by
  intro fuel
  induction fuel with
  | zero =>
    intro result r hok hshape hlast
    have hrr : result = r := by injection hok
    subst hrr
    exact ⟨hshape, hlast⟩
  | succ f ih =>
    intro result r hok hshape hlast
    cases result with
    | nil =>
      by_cases hlt : ([] : List Tweet).length < target
      · rw [show ensureLoop target (f + 1) ([] : List Tweet) =
            if ([] : List Tweet).length < target then Except.error () else Except.ok []
            from rfl, if_pos hlt] at hok
        exact Except.noConfusion hok
      · rw [show ensureLoop target (f + 1) ([] : List Tweet) =
            if ([] : List Tweet).length < target then Except.error () else Except.ok []
            from rfl, if_neg hlt] at hok
        have hrr : ([] : List Tweet) = r := by injection hok
        subst hrr
        exact ⟨hshape, hlast⟩
    | cons t ts =>
      rw [ensureLoop_succ] at hok
      by_cases hlt : (t :: ts).length < target
      · rw [if_pos hlt] at hok
        by_cases h100 :
            utf16Len ((t :: ts).getD (findLongestIdx (t :: ts)) dummyTweet).text < 100
        · rw [if_pos h100] at hok
          have hrr : t :: ts = r := by injection hok
          subst hrr
          exact ⟨hshape, hlast⟩
        · rw [if_neg h100] at hok
          by_cases hsp : 0 < jsLastIndexOfFrom
              ((t :: ts).getD (findLongestIdx (t :: ts)) dummyTweet).text SP
              (utf16Len ((t :: ts).getD (findLongestIdx (t :: ts)) dummyTweet).text / 2)
          · rw [if_pos hsp] at hok
            have hli : findLongestIdx (t :: ts) < (t :: ts).length := by
              by_contra hcon
              rw [List.getD_eq_default _ _ (by omega)] at h100
              exact h100 (by decide)
            have hmap := map_cta_ensureLoopSplit (findLongestIdx (t :: ts))
              ((t :: ts).getD (findLongestIdx (t :: ts)) dummyTweet)
              (jsLastIndexOfFrom ((t :: ts).getD (findLongestIdx (t :: ts)) dummyTweet).text SP
                (utf16Len ((t :: ts).getD (findLongestIdx (t :: ts)) dummyTweet).text / 2))
              (t :: ts) hli rfl
            obtain ⟨k, m, hM⟩ := hshape
            have hmlen : (t :: ts).length = k + m := by
              have := congrArg List.length hM
              simpa using this
            have hm1 : 1 ≤ m :=
              shape_m_pos k m c (by rw [← hM]; exact hlast (by simp))
            have hshape2 : ∃ k2 m2,
                (ensureLoopSplit (findLongestIdx (t :: ts))
                  ((t :: ts).getD (findLongestIdx (t :: ts)) dummyTweet)
                  (jsLastIndexOfFrom
                    ((t :: ts).getD (findLongestIdx (t :: ts)) dummyTweet).text SP
                    (utf16Len ((t :: ts).getD (findLongestIdx (t :: ts)) dummyTweet).text / 2))
                  (t :: ts)).map Tweet.cta =
                List.replicate k2 none ++ List.replicate m2 (some c) := by
              rw [hmap, hM]
              exact shape_insertD k m (findLongestIdx (t :: ts)) c (by omega)
            have hlast2 :
                ((ensureLoopSplit (findLongestIdx (t :: ts))
                  ((t :: ts).getD (findLongestIdx (t :: ts)) dummyTweet)
                  (jsLastIndexOfFrom
                    ((t :: ts).getD (findLongestIdx (t :: ts)) dummyTweet).text SP
                    (utf16Len ((t :: ts).getD (findLongestIdx (t :: ts)) dummyTweet).text / 2))
                  (t :: ts)).map Tweet.cta).getLast? = some (some c) := by
              rw [hmap, hM]
              rw [getLast?_listInsertAt _ (findLongestIdx (t :: ts) + 1) _ (by simp; omega)]
              by_cases hend : findLongestIdx (t :: ts) + 1 =
                  (List.replicate k (none : Option JStr) ++
                    List.replicate m (some c)).length
              · rw [if_pos hend]
                rw [shape_getD k m c _ (by omega)]
                have hge : ¬ (findLongestIdx (t :: ts) < k) := by
                  simp only [List.length_append, List.length_replicate] at hend
                  omega
                rw [if_neg hge]
              · rw [if_neg hend]
                exact shape_last k m c hm1
            exact ih _ r hok hshape2 (fun _ => hlast2)
          · rw [if_neg hsp] at hok
            have hrr : t :: ts = r := by injection hok
            subst hrr
            exact ⟨hshape, hlast⟩
      · rw [if_neg hlt] at hok
        have hrr : t :: ts = r := by injection hok
        subst hrr
        exact ⟨hshape, hlast⟩

theorem getLast?_drop_of_ne_nil (M : List (Option JStr)) (d : Nat) (h : M.drop d ≠ []) :
    (M.drop d).getLast? = M.getLast? := by
  conv_rhs => rw [← List.take_append_drop d M]
  rw [List.getLast?_append, List.getLast?_eq_getLast _ h]
  rfl

theorem ensureExact_cta (tweets : List Tweet) (target : Nat) (r : List Tweet) (c : JStr)
    (hok : ensureExactTweetCount tweets target = .ok r)
    (hshape : ∃ k m, tweets.map Tweet.cta =
      List.replicate k none ++ List.replicate m (some c))
    (hlast : tweets ≠ [] → (tweets.map Tweet.cta).getLast? = some (some c)) :
    (∃ k m, r.map Tweet.cta = List.replicate k none ++ List.replicate m (some c)) ∧
    (r ≠ [] → (r.map Tweet.cta).getLast? = some (some c)) := by
  unfold ensureExactTweetCount at hok
  by_cases h1 : tweets.length = target
  · rw [if_pos h1] at hok
    have hrr : tweets = r := by injection hok
    subst hrr
    exact ⟨hshape, hlast⟩
  · rw [if_neg h1] at hok
    by_cases h2 : tweets.length > target
    · rw [if_pos h2] at hok
      have hok2 : Except.ok (reindex
          (tweets.take ((tweets.length - (tweets.length - target)) / 2) ++
            tweets.drop ((tweets.length - (tweets.length - target)) / 2 +
              (tweets.length - target)))) = Except.ok r := hok
      have hr : reindex
          (tweets.take ((tweets.length - (tweets.length - target)) / 2) ++
            tweets.drop ((tweets.length - (tweets.length - target)) / 2 +
              (tweets.length - target))) = r := by injection hok2
      have hmr : r.map Tweet.cta =
          (tweets.map Tweet.cta).take ((tweets.length - (tweets.length - target)) / 2) ++
          (tweets.map Tweet.cta).drop ((tweets.length - (tweets.length - target)) / 2 +
            (tweets.length - target)) := by
        rw [← hr]
        show (reindexGo 0 _).map Tweet.cta = _
        rw [ctas_reindexGo, List.map_append, List.map_take, List.map_drop]
      constructor
      · obtain ⟨k, m, hM⟩ := hshape
        rw [hmr, hM]
        exact shape_take_drop k m _ _ c (by omega)
      · intro hne
        have hrlen : r.length = target := by
          rw [← hr]
          show (reindexGo 0 _).length = target
          rw [length_reindexGo, List.length_append, List.length_take, List.length_drop]
          omega
        have htpos : 1 ≤ target := by
          rcases Nat.eq_zero_or_pos target with h0 | h0
          · exfalso
            apply hne
            rw [← List.length_eq_zero]
            omega
          · exact h0
        have hdne : (tweets.map Tweet.cta).drop
            ((tweets.length - (tweets.length - target)) / 2 +
              (tweets.length - target)) ≠ [] := by
          apply List.ne_nil_of_length_pos
          rw [List.length_drop, List.length_map]
          omega
        rw [hmr, List.getLast?_append, List.getLast?_eq_getLast _ hdne]
        show some _ = some (some c)
        rw [← List.getLast?_eq_getLast _ hdne]
        rw [getLast?_drop_of_ne_nil _ _ hdne]
        exact hlast (by intro h0; rw [h0] at h2; simp at h2)
    · rw [if_neg h2] at hok
      by_cases hnil : tweets = []
      · subst hnil
        have h0 : 0 < target := by
          have h4 : ¬ ([] : List Tweet).length = target := h1
          simp only [List.length_nil] at h4
          omega
        have htz : target ≠ 0 := by omega
        obtain ⟨j, hj⟩ := Nat.exists_eq_succ_of_ne_zero htz
        subst hj
        have hstep : ensureLoop (j + 1) (j + 1) [] =
            if ([] : List Tweet).length < j + 1 then Except.error ()
            else Except.ok [] := rfl
        have hel : ensureLoop (j + 1) (j + 1) [] = Except.error () := by
          rw [hstep, if_pos (by omega)]
        have hfe : (j + 1) - ([] : List Tweet).length = j + 1 := rfl
        rw [hfe, hel] at hok
        exact Except.noConfusion hok
      · have h3 : tweets.length < target := by omega
        cases he : ensureLoop target (target - tweets.length) tweets with
        | error e =>
          rw [he] at hok
          exact Except.noConfusion hok
        | ok rr =>
          rw [he] at hok
          have hok2 : Except.ok (reindex (rr.take target)) = Except.ok r := hok
          have hr : reindex (rr.take target) = r := by injection hok2
          obtain ⟨rm, hrm, hrmne, hlb, hub, _⟩ :=
            ensureLoop_master target (target - tweets.length) tweets hnil
          rw [hrm] at he
          have hrr : rm = rr := by injection he
          rw [hrr] at hrmne hlb hub hrm
          have hmax : max tweets.length target = target := Nat.max_eq_right (by omega)
          rw [hmax] at hub
          have htake : rr.take target = rr := List.take_of_length_le hub
          have hloop := ensureLoop_cta target c (target - tweets.length) tweets rr hrm
            hshape hlast
          constructor
          · rw [← hr]
            show ∃ k2 m2, (reindexGo 0 _).map Tweet.cta = _
            rw [ctas_reindexGo, htake]
            exact hloop.1
          · intro hne
            rw [← hr]
            show ((reindexGo 0 _).map Tweet.cta).getLast? = some (some c)
            rw [ctas_reindexGo, htake]
            exact hloop.2 hrmne

theorem mkTweetsGo_cta (params : Params) (rng : Rng) (la : LangAnalysis) (n : Nat) :
    ∀ (ss : List JStr) (i : Nat), ss ≠ [] → i + ss.length = n →
      (mkTweetsGo n params rng la i ss).map Tweet.cta =
        List.replicate (ss.length - 1) none ++
          [some (generateCTA params.style la rng.ctaChoice)] := by
  intro ss
  induction ss with
  | nil => intro i h; exact absurd rfl h
  | cons s ss ih =>
    intro i hne hin
    cases ss with
    | nil =>
      have hi : i = n - 1 := by
        simp only [List.length_cons, List.length_nil] at hin
        omega
      show (if i = n - 1 then some (generateCTA params.style la rng.ctaChoice)
        else none) :: ([] : List Tweet).map Tweet.cta = _
      rw [if_pos hi]
      rfl
    | cons s2 ss2 =>
      have hlen : (s :: s2 :: ss2).length = ss2.length + 2 := by simp
      have hne2 : i ≠ n - 1 := by
        simp only [List.length_cons] at hin
        omega
      show (if i = n - 1 then some (generateCTA params.style la rng.ctaChoice)
        else none) :: (mkTweetsGo n params rng la (i + 1) (s2 :: ss2)).map Tweet.cta = _
      rw [if_neg hne2, ih (i + 1) (by simp) (by
        simp only [List.length_cons] at hin ⊢
        omega)]
      have h9 : (s :: s2 :: ss2).length - 1 = ((s2 :: ss2).length - 1) + 1 := by simp
      rw [h9, List.replicate_succ, List.cons_append]

/-- Concrete input for the C5 counterexample: four short paragraphs, a
149-unit paragraph and a 219-unit paragraph. -/
def c5Text : JStr := "aaaa aaaaa\n\naaaa aaaaa\n\naaaa aaaaa\n\naaaa aaaaa\n\nbbbbbbbbb bbbbbbbbb bbbbbbbbb bbbbbbbbb bbbbbbbbb bbbbbbbbb bbbbbbbbb bbbbbbbbb bbbbbbbbb bbbbbbbbb bbbbbbbbb bbbbbbbbb bbbbbbbbb bbbbbbbbb bbbbbbbbb\n\nccccccccc ccccccccc ccccccccc ccccccccc ccccccccc ccccccccc ccccccccc ccccccccc ccccccccc ccccccccc ccccccccc ccccccccc ccccccccc ccccccccc ccccccccc ccccccccc ccccccccc ccccccccc ccccccccc ccccccccc ccccccccc ccccccccc".toList

/-- Parameters for the C5 counterexample: four tweets, no hashtag
generation, no images. -/
def c5Params : Params :=
  { language := "auto".toList, style := "professional".toList, maxTweets := 4
    includeHashtags := false, includeImages := false }
set_option maxRecDepth 100000 in
/-- The claim of C5 as stated fails: on this input the split loop of
`ensureExactTweetCount` divides the long final paragraph (which already
carries the CTA) into two tweets, both keeping a copy of the CTA, so the
third of four messages also has a non-null `cta`. -/
theorem c5_counterexample :
    (generateFallbackThread c5Text c5Params rng0).getThread.map
      (fun t => t.cta.isSome) = [false, false, true, true] := by
  decide

/-- C5, amended: in every thread returned by `generateFallbackThread` the
messages carrying a CTA form a suffix (the `cta` fields are a run of
`null`s followed by a run of copies of the one generated CTA), and when the
thread is non-empty its final message does carry the CTA; a non-final
message can carry it too, since the rebalancing split copies the whole
tweet object, CTA included. -/
theorem c5_amended (text : JStr) (params : Params) (rng : Rng) :
    ∃ k m c,
      (generateFallbackThread text params rng).getThread.map Tweet.cta =
        List.replicate k none ++ List.replicate m (some c) ∧
      ((generateFallbackThread text params rng).getThread ≠ [] →
        ((generateFallbackThread text params rng).getThread.map Tweet.cta).getLast? =
          some (some c)) := by
  unfold generateFallbackThread
  cases hc : gftCore text params rng with
  | error e =>
    exact ⟨0, 0, [], rfl, fun hne => absurd rfl hne⟩
  | ok r =>
    unfold gftCore at hc
    cases he : gftEnsured text params rng with
    | error e2 =>
      rw [he] at hc
      exact Except.noConfusion hc
    | ok tweets1 =>
      rw [he] at hc
      have hthread : ((dedupeHashtagsAndEmojis
          (if params.includeHashtags = true then generateThreadHashtags tweets1 gftHtOptions
            else tweets1)).map fixTweetLength) = r.thread := by
        have h5 := congrArg (fun x : Except Unit ThreadResult =>
          match x with
          | .ok v => v.thread
          | .error _ => ([] : List Tweet)) hc
        exact h5
      have hmap : r.thread.map Tweet.cta = tweets1.map Tweet.cta := by
        rw [← hthread, map_cta_fix, map_cta_dedupe]
        by_cases hh : params.includeHashtags = true
        · rw [if_pos hh, map_cta_gth]
        · rw [if_neg hh]
      have hinit : (∃ k m, (gftInitial text params rng).map Tweet.cta =
          List.replicate k none ++ List.replicate m
            (some (generateCTA params.style (detectLanguagePercentages text)
              rng.ctaChoice))) ∧
          (gftInitial text params rng ≠ [] →
            ((gftInitial text params rng).map Tweet.cta).getLast? =
              some (some (generateCTA params.style (detectLanguagePercentages text)
                rng.ctaChoice))) := by
        by_cases hss : gftSegments text params = []
        · constructor
          · refine ⟨0, 0, ?_⟩
            show (mkTweetsGo (gftSegments text params).length params rng
              (detectLanguagePercentages text) 0 (gftSegments text params)).map Tweet.cta = _
            rw [hss]
            rfl
          · intro hne
            exfalso
            apply hne
            show mkTweetsGo (gftSegments text params).length params rng
              (detectLanguagePercentages text) 0 (gftSegments text params) = []
            rw [hss]
            rfl
        · have hm := mkTweetsGo_cta params rng (detectLanguagePercentages text)
            (gftSegments text params).length (gftSegments text params) 0 hss (by omega)
          have hm2 : (gftInitial text params rng).map Tweet.cta =
              List.replicate ((gftSegments text params).length - 1) none ++
                List.replicate 1 (some (generateCTA params.style
                  (detectLanguagePercentages text) rng.ctaChoice)) := hm
          constructor
          · exact ⟨_, _, hm2⟩
          · intro _
            rw [hm2]
            exact shape_last _ 1 _ (Nat.le_refl 1)
      have hfinal := ensureExact_cta (gftInitial text params rng) params.maxTweets tweets1
        (generateCTA params.style (detectLanguagePercentages text) rng.ctaChoice)
        he hinit.1 hinit.2
      obtain ⟨⟨k, m, hsh⟩, hl⟩ := hfinal
      refine ⟨k, m, generateCTA params.style (detectLanguagePercentages text) rng.ctaChoice,
        ?_, ?_⟩
      · show r.thread.map Tweet.cta = _
        rw [hmap]
        exact hsh
      · intro hne
        show (r.thread.map Tweet.cta).getLast? = _
        rw [hmap]
        apply hl
        apply List.ne_nil_of_length_pos
        have hlen1 : r.thread.length = tweets1.length := by
          have h6 := congrArg List.length hmap
          simpa using h6
        have hlen2 : 0 < r.thread.length := List.length_pos.mpr hne
        omega

/-- Witness instantiating the amended C5 at the concrete counterexample
input. -/
theorem c5_witness :
    ∃ k m c,
      (generateFallbackThread c5Text c5Params rng0).getThread.map Tweet.cta =
        List.replicate k none ++ List.replicate m (some c) ∧
      ((generateFallbackThread c5Text c5Params rng0).getThread ≠ [] →
        ((generateFallbackThread c5Text c5Params rng0).getThread.map Tweet.cta).getLast? =
          some (some c)) :=
  c5_amended c5Text c5Params rng0
